import Mathlib

/-!
Verification of the pydbal database abstraction layer (transaction state
machine, SQL builder, statement placeholder rewriting, platform dialect
layer) against its natural-language specification.  Each definition is a
shallow embedding of the corresponding Python source in `pydbal/`.
-/

namespace PyDBAL

/-! ### Errors and driver events

`Err` covers the exception kinds raised by the embedded code paths
(`pydbal/exception.py`), plus `typeError` for Python-level `TypeError`
(string/integer concatenation) and `driverError` for an injected failure of a
driver call.  `Event` records the calls the connection issues to the driver
or platform layer, in order. -/

inductive Err where
  | noActiveTransaction
  | commitFailedRollbackOnly
  | driverError
  | typeError
  | invalidIsolationLevel
  | invalidOffset
  | offsetNotSupported
  | unknownAlias (alias_ : String)
  | nonUniqueAlias (alias_ : String)
  | missingPositionalParameter (k : Nat)
  | missingNamedParameter (k : String)
  | indexError
  | recursionLimit
  deriving DecidableEq, Repr

inductive Event where
  | driverBegin
  | driverCommit
  | driverRollback
  | createSavepoint (name : String)
  | releaseSavepoint (name : String)
  | rollbackSavepoint (name : String)
  deriving DecidableEq, Repr

/-! ### Connection transaction state (`pydbal/connection.py`)

The fields are the transaction-relevant instance attributes of
`Connection.__init__`.  The nesting level is carried as `Int`, as Python
integers are unbounded and the spec's invariant `nesting ≥ 0` is to be
proved, not assumed.  The driver and platform are modelled as always
connected and always succeeding (the one injected driver failure used for
C9 is explicit in `rollbackD`); savepoints are supported by both shipped
platforms, so `create_savepoint`/`release_savepoint`/`rollback_savepoint`
never raise. -/

structure Conn where
  transaction_nesting_level : Int
  is_rollback_only : Bool
  auto_commit : Bool
  nest_transactions_with_savepoints : Bool
  deriving DecidableEq, Repr

/-- Result of running one connection method: the state at return (or at the
point the exception was raised), the exception if one was raised, and the
driver/platform calls issued before that point. -/
structure StepRes where
  conn : Conn
  err : Option Err
  events : List Event
  deriving DecidableEq, Repr

/-- `Connection._get_nested_transaction_savepoint_name` -/
def get_nested_transaction_savepoint_name (c : Conn) : String :=
  "PYDBAL_SAVEPOINT_" ++ toString c.transaction_nesting_level

/-- `Connection.is_transaction_active` -/
def is_transaction_active (c : Conn) : Bool :=
  c.transaction_nesting_level > 0

/-- `Connection.begin_transaction` -/
def begin_transaction (c : Conn) : StepRes :=
  let c := { c with transaction_nesting_level := c.transaction_nesting_level + 1 }
  if c.transaction_nesting_level = 1 then
    ⟨c, none, [.driverBegin]⟩
  else if c.nest_transactions_with_savepoints then
    ⟨c, none, [.createSavepoint (get_nested_transaction_savepoint_name c)]⟩
  else
    ⟨c, none, []⟩

/-- `Connection.commit` -/
def commit (c : Conn) : StepRes :=
  if c.transaction_nesting_level = 0 then ⟨c, some .noActiveTransaction, []⟩
  else if c.is_rollback_only then ⟨c, some .commitFailedRollbackOnly, []⟩
  else
    let evs :=
      if c.transaction_nesting_level = 1 then [Event.driverCommit]
      else if c.nest_transactions_with_savepoints then
        [Event.releaseSavepoint (get_nested_transaction_savepoint_name c)]
      else []
    let c := { c with transaction_nesting_level := c.transaction_nesting_level - 1 }
    if ¬c.auto_commit ∧ c.transaction_nesting_level = 0 then
      let r := begin_transaction c
      ⟨r.conn, none, evs ++ r.events⟩
    else ⟨c, none, evs⟩

/-- `Connection.rollback`, parameterised by whether the driver-level
`rollback` call succeeds (`driver_ok = false` injects a raising driver, used
for C9; the Python statement `self._transaction_nesting_level = 0` has
already executed when the driver call is made). -/
def rollbackD (driver_ok : Bool) (c : Conn) : StepRes :=
  if c.transaction_nesting_level = 0 then ⟨c, some .noActiveTransaction, []⟩
  else if c.transaction_nesting_level = 1 then
    let c := { c with transaction_nesting_level := 0 }
    if driver_ok then
      let c := { c with is_rollback_only := false }
      if ¬c.auto_commit then
        let r := begin_transaction c
        ⟨r.conn, none, [Event.driverRollback] ++ r.events⟩
      else ⟨c, none, [.driverRollback]⟩
    else ⟨c, some .driverError, []⟩
  else if c.nest_transactions_with_savepoints then
    ⟨{ c with transaction_nesting_level := c.transaction_nesting_level - 1 }, none,
      [.rollbackSavepoint (get_nested_transaction_savepoint_name c)]⟩
  else
    ⟨{ c with
        is_rollback_only := true
        transaction_nesting_level := c.transaction_nesting_level - 1 },
      none, []⟩

/-- `Connection.rollback` with a successful driver. -/
def rollback : Conn → StepRes := rollbackD true

/-- `Connection.set_rollback_only` -/
def set_rollback_only (c : Conn) : StepRes :=
  if c.transaction_nesting_level = 0 then ⟨c, some .noActiveTransaction, []⟩
  else ⟨{ c with is_rollback_only := true }, none, []⟩

/-- The four transaction operations quantified over in the spec's
transaction-nesting invariant. -/
inductive TxOp where
  | beginT
  | commitT
  | rollbackT
  | setRollbackOnlyT
  deriving DecidableEq, Repr

def applyOp : TxOp → Conn → StepRes
  | .beginT, c => begin_transaction c
  | .commitT, c => commit c
  | .rollbackT, c => rollback c
  | .setRollbackOnlyT, c => set_rollback_only c

/-- Run a sequence of transaction operations, stopping at the first raised
exception. -/
def runOps : List TxOp → Conn → StepRes
  | [], c => ⟨c, none, []⟩
  | op :: ops, c =>
    let r := applyOp op c
    if r.err = none then
      let r2 := runOps ops r.conn
      ⟨r2.conn, r2.err, r.events ++ r2.events⟩
    else ⟨r.conn, r.err, r.events⟩

/-- The spec's transaction invariant: the nesting counter is non-negative,
and at nesting zero the rollback-only flag is clear. -/
def TxInv (c : Conn) : Prop :=
  0 ≤ c.transaction_nesting_level ∧
    (c.transaction_nesting_level = 0 → c.is_rollback_only = false)

/-- A fresh connection: nesting 0, rollback-only clear, flags as configured. -/
def initConn (ac nw : Bool) : Conn :=
  ⟨0, false, ac, nw⟩

theorem begin_transaction_inv (c : Conn) (h : TxInv c) :
    TxInv (begin_transaction c).conn := by
  obtain ⟨h0, _⟩ := h
  dsimp only [begin_transaction, TxInv]
  split
  · exact ⟨by dsimp only; omega, fun hx => by dsimp only at hx; exact absurd hx (by omega)⟩
  · split
    · exact ⟨by dsimp only; omega, fun hx => by dsimp only at hx; exact absurd hx (by omega)⟩
    · exact ⟨by dsimp only; omega, fun hx => by dsimp only at hx; exact absurd hx (by omega)⟩

theorem commit_inv (c : Conn) (h : TxInv c) (hok : (commit c).err = none) :
    TxInv (commit c).conn := by
  obtain ⟨h0, h1⟩ := h
  dsimp only [commit] at hok ⊢
  by_cases hz : c.transaction_nesting_level = 0
  · rw [if_pos hz] at hok
    simp at hok
  · rw [if_neg hz] at hok ⊢
    by_cases hro : c.is_rollback_only = true
    · rw [if_pos hro] at hok
      simp at hok
    · rw [if_neg hro] at hok ⊢
      by_cases hac : ¬c.auto_commit = true ∧ c.transaction_nesting_level - 1 = 0
      · rw [if_pos hac]
        apply begin_transaction_inv
        exact ⟨by dsimp only; omega, fun _ => by dsimp only; simpa using hro⟩
      · rw [if_neg hac]
        exact ⟨by dsimp only; omega, fun _ => by dsimp only; simpa using hro⟩

theorem rollback_inv (c : Conn) (h : TxInv c) (hok : (rollback c).err = none) :
    TxInv (rollback c).conn := by
  obtain ⟨h0, _⟩ := h
  dsimp only [rollback, rollbackD] at hok ⊢
  by_cases hz : c.transaction_nesting_level = 0
  · rw [if_pos hz] at hok
    simp at hok
  · rw [if_neg hz] at hok ⊢
    by_cases h1c : c.transaction_nesting_level = 1
    · rw [if_pos h1c] at hok ⊢
      rw [if_pos rfl] at hok ⊢
      by_cases hac : ¬c.auto_commit = true
      · rw [if_pos hac]
        apply begin_transaction_inv
        exact ⟨le_refl 0, fun _ => rfl⟩
      · rw [if_neg hac]
        exact ⟨le_refl 0, fun _ => rfl⟩
    · rw [if_neg h1c] at hok ⊢
      by_cases hnw : c.nest_transactions_with_savepoints = true
      · rw [if_pos hnw]
        exact ⟨by dsimp only; omega, fun hx => by dsimp only at hx; exact absurd hx (by omega)⟩
      · rw [if_neg hnw]
        exact ⟨by dsimp only; omega, fun hx => by dsimp only at hx; exact absurd hx (by omega)⟩

theorem set_rollback_only_inv (c : Conn) (h : TxInv c)
    (hok : (set_rollback_only c).err = none) :
    TxInv (set_rollback_only c).conn := by
  obtain ⟨h0, _⟩ := h
  dsimp only [set_rollback_only] at hok ⊢
  by_cases hz : c.transaction_nesting_level = 0
  · rw [if_pos hz] at hok
    simp at hok
  · rw [if_neg hz]
    exact ⟨h0, fun hx => absurd hx hz⟩

theorem applyOp_inv (op : TxOp) (c : Conn) (h : TxInv c)
    (hok : (applyOp op c).err = none) : TxInv (applyOp op c).conn := by
  cases op with
  | beginT => exact begin_transaction_inv c h
  | commitT => exact commit_inv c h hok
  | rollbackT => exact rollback_inv c h hok
  | setRollbackOnlyT => exact set_rollback_only_inv c h hok

/-- An error-free run remains error-free on every prefix. -/
theorem runOps_take_ok (ops : List TxOp) (c : Conn)
    (hok : (runOps ops c).err = none) (i : Nat) :
    (runOps (ops.take i) c).err = none := by
  induction ops generalizing c i with
  | nil => simpa using hok
  | cons op ops ih =>
    cases i with
    | zero => simp [runOps]
    | succ i =>
      rw [List.take_succ_cons]
      dsimp only [runOps] at hok ⊢
      by_cases hr : (applyOp op c).err = none
      · rw [if_pos hr] at hok ⊢
        exact ih (applyOp op c).conn hok i
      · rw [if_neg hr] at hok
        exact absurd hok hr

theorem runOps_inv (ops : List TxOp) (c : Conn) (h : TxInv c)
    (hok : (runOps ops c).err = none) : TxInv (runOps ops c).conn := by
  induction ops generalizing c with
  | nil => exact h
  | cons op ops ih =>
    dsimp only [runOps] at hok ⊢
    by_cases hr : (applyOp op c).err = none
    · rw [if_pos hr] at hok ⊢
      exact ih (applyOp op c).conn (applyOp_inv op c h hr) hok
    · rw [if_neg hr] at hok
      exact absurd hok hr

/-- C1: for every finite sequence of `begin_transaction`/`commit`/`rollback`/
`set_rollback_only` calls on a fresh connection in which no call raises, the
transaction nesting counter is non-negative after every step, and whenever it
is zero the rollback-only flag is false. -/
theorem claim_C1_transaction_invariant (ac nw : Bool) (ops : List TxOp)
    (hok : (runOps ops (initConn ac nw)).err = none) (i : Nat) :
    0 ≤ (runOps (ops.take i) (initConn ac nw)).conn.transaction_nesting_level ∧
      ((runOps (ops.take i) (initConn ac nw)).conn.transaction_nesting_level = 0 →
        (runOps (ops.take i) (initConn ac nw)).conn.is_rollback_only = false) := by
  exact runOps_inv (ops.take i) (initConn ac nw) ⟨le_refl 0, fun _ => rfl⟩
    (runOps_take_ok ops (initConn ac nw) hok i)

theorem claim_C1_transaction_invariant_witness :
    (runOps [TxOp.beginT, TxOp.beginT, TxOp.rollbackT, TxOp.rollbackT]
        (initConn true false)).err = none ∧
      0 ≤ (runOps ([TxOp.beginT, TxOp.beginT, TxOp.rollbackT, TxOp.rollbackT].take 3)
            (initConn true false)).conn.transaction_nesting_level := by
  refine ⟨rfl, ?_⟩
  exact (claim_C1_transaction_invariant true false
    [TxOp.beginT, TxOp.beginT, TxOp.rollbackT, TxOp.rollbackT] rfl 3).1

/-- C2: `commit` checks `nesting > 0` first (raising no-active-transaction
with no driver call), then the rollback-only flag (raising
commit-failed-rollback-only with no driver call); and without savepoints the
sequence `begin; begin; rollback; commit` raises commit-failed-rollback-only
at the final commit, having issued only the initial driver BEGIN. -/
theorem claim_C2_commit_rollback_only (c : Conn) :
    (c.transaction_nesting_level = 0 →
      commit c = ⟨c, some .noActiveTransaction, []⟩) ∧
    (c.transaction_nesting_level ≠ 0 → c.is_rollback_only = true →
      commit c = ⟨c, some .commitFailedRollbackOnly, []⟩) ∧
    runOps [TxOp.beginT, TxOp.beginT, TxOp.rollbackT, TxOp.commitT]
        (initConn true false) =
      ⟨⟨1, true, true, false⟩, some .commitFailedRollbackOnly, [.driverBegin]⟩ := by
  refine ⟨fun h0 => ?_, fun hne hro => ?_, rfl⟩
  · unfold commit
    rw [if_pos h0]
  · unfold commit
    rw [if_neg hne, if_pos hro]

theorem claim_C2_commit_rollback_only_witness :
    commit ⟨0, true, true, false⟩ =
        ⟨⟨0, true, true, false⟩, some .noActiveTransaction, []⟩ ∧
      commit ⟨2, true, true, false⟩ =
        ⟨⟨2, true, true, false⟩, some .commitFailedRollbackOnly, []⟩ :=
  ⟨(claim_C2_commit_rollback_only ⟨0, true, true, false⟩).1 rfl,
    (claim_C2_commit_rollback_only ⟨2, true, true, false⟩).2.1 (by decide) rfl⟩

/-- C9: when `rollback` is called at nesting 1, the Python code sets the
nesting counter to 0 before invoking the driver rollback; if the driver
rollback raises, the exception propagates while the connection is left with
nesting 0 (`is_transaction_active` now false) and the rollback-only flag
still holding its pre-call value. -/
theorem claim_C9_rollback_not_atomic (c : Conn)
    (h : c.transaction_nesting_level = 1) :
    rollbackD false c =
        ⟨{ c with transaction_nesting_level := 0 }, some .driverError, []⟩ ∧
      is_transaction_active (rollbackD false c).conn = false ∧
      (rollbackD false c).conn.is_rollback_only = c.is_rollback_only := by
  have hne : c.transaction_nesting_level ≠ 0 := by omega
  have hstep : rollbackD false c =
      ⟨{ c with transaction_nesting_level := 0 }, some .driverError, []⟩ := by
    unfold rollbackD
    rw [if_neg hne, if_pos h]
    simp
  refine ⟨hstep, ?_, ?_⟩
  · rw [hstep]
    simp [is_transaction_active]
  · rw [hstep]

theorem claim_C9_rollback_not_atomic_witness :
    rollbackD false ⟨1, true, true, false⟩ =
        ⟨⟨0, true, true, false⟩, some .driverError, []⟩ ∧
      is_transaction_active (rollbackD false ⟨1, true, true, false⟩).conn = false :=
  ⟨(claim_C9_rollback_not_atomic ⟨1, true, true, false⟩ rfl).1,
    (claim_C9_rollback_not_atomic ⟨1, true, true, false⟩ rfl).2.1⟩

/-! ### Platform layer: LIMIT/OFFSET encoding (`pydbal/platforms/`)

`modify_limit_sql` is the validation wrapper of `BasePlatform`; the
engine-specific `_modify_limit_sql` overrides are passed in as the `modify`
argument.  Python `str(n)` on a non-negative int agrees with Lean's
`toString`; negative offsets are rejected before any string is built. -/

/-- `BasePlatform._modify_limit_sql` -/
def base_modify_limit_sql (sql : String) (limit offset : Option Int) : String :=
  let sql := match limit with
    | some l => sql ++ " LIMIT " ++ toString l
    | none => sql
  match offset with
  | some o => sql ++ " OFFSET " ++ toString o
  | none => sql

/-- `MySQLPlatform._modify_limit_sql` -/
def mysql_modify_limit_sql (sql : String) (limit offset : Option Int) : String :=
  match limit, offset with
  | some l, some o => sql ++ " LIMIT " ++ toString l ++ " OFFSET " ++ toString o
  | some l, none => sql ++ " LIMIT " ++ toString l
  | none, some o => sql ++ " LIMIT 18446744073709551615 OFFSET " ++ toString o
  | none, none => sql

/-- `SQLitePlatform._modify_limit_sql` -/
def sqlite_modify_limit_sql (sql : String) (limit offset : Option Int) : String :=
  match limit, offset with
  | none, some o => sql ++ " LIMIT -1 OFFSET " ++ toString o
  | _, _ => base_modify_limit_sql sql limit offset

/-- `BasePlatform.modify_limit_sql`: validates the offset, then delegates to
the platform's `_modify_limit_sql` (`modify`).  Both shipped platforms
inherit `is_limit_offset_supported = True`. -/
def modify_limit_sql (modify : String → Option Int → Option Int → String)
    (limit_offset_supported : Bool) (sql : String) (limit offset : Option Int) :
    Except Err String :=
  match offset with
  | some o =>
    if o < 0 then .error .invalidOffset
    else if o > 0 ∧ ¬limit_offset_supported then .error .offsetNotSupported
    else .ok (modify sql limit (some o))
  | none => .ok (modify sql limit none)

/-- C7: with only the offset set, MySQL's limit modification appends
` LIMIT 18446744073709551615 OFFSET k` and SQLite's appends
` LIMIT -1 OFFSET k`; a negative offset raises invalid-offset on either
platform before any suffixing. -/
theorem claim_C7_offset_only_limit_sql (s : String) (k : Int) :
    (0 ≤ k →
      modify_limit_sql mysql_modify_limit_sql true s none (some k) =
          .ok (s ++ " LIMIT 18446744073709551615 OFFSET " ++ toString k) ∧
        modify_limit_sql sqlite_modify_limit_sql true s none (some k) =
          .ok (s ++ " LIMIT -1 OFFSET " ++ toString k)) ∧
    (k < 0 →
      modify_limit_sql mysql_modify_limit_sql true s none (some k) =
          .error .invalidOffset ∧
        modify_limit_sql sqlite_modify_limit_sql true s none (some k) =
          .error .invalidOffset) := by
  constructor
  · intro hk
    have hneg : ¬k < 0 := by omega
    constructor
    · simp [modify_limit_sql, hneg, mysql_modify_limit_sql]
    · simp [modify_limit_sql, hneg, sqlite_modify_limit_sql]
  · intro hk
    constructor
    · simp [modify_limit_sql, hk]
    · simp [modify_limit_sql, hk]

theorem claim_C7_offset_only_limit_sql_witness :
    modify_limit_sql mysql_modify_limit_sql true "SELECT 1 FROM t" none (some 10) =
        .ok "SELECT 1 FROM t LIMIT 18446744073709551615 OFFSET 10" ∧
      modify_limit_sql sqlite_modify_limit_sql true "SELECT 1 FROM t" none (some 10) =
        .ok "SELECT 1 FROM t LIMIT -1 OFFSET 10" ∧
      modify_limit_sql sqlite_modify_limit_sql true "SELECT 1 FROM t" none (some (-3)) =
        .error .invalidOffset := by
  have h1 := (claim_C7_offset_only_limit_sql "SELECT 1 FROM t" 10).1 (by omega)
  have h2 := (claim_C7_offset_only_limit_sql "SELECT 1 FROM t" (-3)).2 (by omega)
  exact ⟨h1.1, h1.2, h2.2⟩

/-! ### Platform layer: transaction isolation SQL

Python values are dynamically typed: `SQLitePlatform.
_get_transaction_isolation_sql` returns the *integer* `0` or `1`, which
`set_transaction_isolation` then concatenates onto a string with `+`.
`PyVal` embeds this dynamic typing, and `pyStrConcat` is Python's `str + x`,
raising `TypeError` unless `x` is a string. -/

inductive PyVal where
  | str (s : String)
  | int (n : Int)
  deriving DecidableEq, Repr

/-- Python `s + v` for a string `s`: succeeds only when `v` is a string. -/
def pyStrConcat (s : String) : PyVal → Except Err String
  | .str t => .ok (s ++ t)
  | .int _ => .error .typeError

/-- `BasePlatform._get_transaction_isolation_sql` (the four
`Connection.TRANSACTION_*` constants are `1`..`4`). -/
def get_transaction_isolation_sql (level : Int) : Except Err PyVal :=
  if level = 1 then .ok (.str "READ UNCOMMITTED")
  else if level = 2 then .ok (.str "READ COMMITTED")
  else if level = 3 then .ok (.str "REPEATABLE READ")
  else if level = 4 then .ok (.str "SERIALIZABLE")
  else .error .invalidIsolationLevel

/-- `SQLitePlatform._get_transaction_isolation_sql`: returns the *int*
`0` for READ UNCOMMITTED and `1` for the other three levels. -/
def sqlite_get_transaction_isolation_sql (level : Int) : Except Err PyVal :=
  if level = 1 then .ok (.int 0)
  else if level = 2 ∨ level = 3 ∨ level = 4 then .ok (.int 1)
  else .error .invalidIsolationLevel

/-- `MySQLPlatform.set_transaction_isolation`: the SQL string handed to
`execute_and_clear`. -/
def mysql_set_transaction_isolation (level : Int) : Except Err String := do
  let v ← get_transaction_isolation_sql level
  pyStrConcat "SET SESSION TRANSACTION ISOLATION LEVEL " v

/-- `SQLitePlatform.set_transaction_isolation`: the SQL string handed to
`execute_and_clear`. -/
def sqlite_set_transaction_isolation (level : Int) : Except Err String := do
  let v ← sqlite_get_transaction_isolation_sql level
  pyStrConcat "PRAGMA read_uncommitted = " v

/-- C8, evaluated against the code: MySQL emits
`SET SESSION TRANSACTION ISOLATION LEVEL <name>` for the four levels and
raises invalid-isolation-level otherwise, and SQLite raises
invalid-isolation-level for out-of-range levels — but for each of the four
valid levels the SQLite path raises a Python `TypeError` (the claimed
`PRAGMA read_uncommitted = 0|1` string is never produced, because the int
`0`/`1` is concatenated onto a string). -/
theorem claim_C8_isolation_levels (level : Int) :
    (mysql_set_transaction_isolation 1 =
        .ok "SET SESSION TRANSACTION ISOLATION LEVEL READ UNCOMMITTED" ∧
      mysql_set_transaction_isolation 2 =
        .ok "SET SESSION TRANSACTION ISOLATION LEVEL READ COMMITTED" ∧
      mysql_set_transaction_isolation 3 =
        .ok "SET SESSION TRANSACTION ISOLATION LEVEL REPEATABLE READ" ∧
      mysql_set_transaction_isolation 4 =
        .ok "SET SESSION TRANSACTION ISOLATION LEVEL SERIALIZABLE") ∧
    (¬(level = 1 ∨ level = 2 ∨ level = 3 ∨ level = 4) →
      mysql_set_transaction_isolation level = .error .invalidIsolationLevel ∧
        sqlite_set_transaction_isolation level = .error .invalidIsolationLevel) ∧
    (level = 1 ∨ level = 2 ∨ level = 3 ∨ level = 4 →
      sqlite_set_transaction_isolation level = .error .typeError) := by
  refine ⟨⟨rfl, rfl, rfl, rfl⟩, fun h => ?_, fun h => ?_⟩
  · have h1 : level ≠ 1 := fun hx => h (Or.inl hx)
    have h2 : level ≠ 2 := fun hx => h (Or.inr (Or.inl hx))
    have h3 : level ≠ 3 := fun hx => h (Or.inr (Or.inr (Or.inl hx)))
    have h4 : level ≠ 4 := fun hx => h (Or.inr (Or.inr (Or.inr hx)))
    constructor
    · simp [mysql_set_transaction_isolation, get_transaction_isolation_sql,
        h1, h2, h3, h4, Bind.bind, Except.bind]
    · have hor : ¬(level = 2 ∨ level = 3 ∨ level = 4) := by tauto
      simp [sqlite_set_transaction_isolation, sqlite_get_transaction_isolation_sql,
        h1, hor, Bind.bind, Except.bind]
  · rcases h with h | h | h | h <;> subst h <;> rfl

theorem claim_C8_isolation_levels_witness :
    sqlite_set_transaction_isolation 1 = .error .typeError ∧
      mysql_set_transaction_isolation 0 = .error .invalidIsolationLevel :=
  ⟨(claim_C8_isolation_levels 1).2.2 (Or.inl rfl),
    ((claim_C8_isolation_levels 0).2.1 (by omega)).1⟩

/-! ### Statement placeholder rewriting (`pydbal/statement.py`)

`Statement.execute` merges positional args into the keyword dict under
integer keys and applies `Statement._re_params.sub(self._prepare(kwargs,
params), sql)`.  The pattern is

  `(\?|(?<!:):[a-zA-Z_][a-zA-Z0-9_]*)(?=(?:(?:\\.|[^'"\\])*['"](?:\\.|[^'"\\])*['"])*(?:\\.|[^'"\\])*\Z)`

A candidate token is `?`, or `:` followed by a greedy run of name characters
and not preceded by another `:`.  The lookahead demands that the rest of the
input parses as pairs of quote characters separated by runs of escaped pairs
(`\\` + any non-newline character) and non-quote non-backslash characters,
then one final such run up to end of input.  At every input position the
next consumption is forced (a backslash can only start an escape pair, a
quote character can only be a quote delimiter), so the lookahead holds
exactly when the remainder scans completely with an even number of quote
characters (either kind) outside escape pairs — `lookaheadOk` below.
`re.sub` scans left to right: on a match it emits the replacement and
resumes after the matched token; on a failure at a position it emits that
character and retries from the next position.  `subParams` is that scan,
threading the one piece of lookbehind state that matters (whether the
previous character is `:`) and the `replace` closure's state
(`_param_counter`, `exec_params`). -/

inductive PKey where
  | pos (n : Nat)
  | named (s : String)
  deriving DecidableEq, Repr

/-- A bound parameter value: Python lists/tuples get expanded, anything else
is passed through as a scalar.  The element type is abstract. -/
inductive Param (α : Type) where
  | scalar (v : α)
  | pylist (vs : List α)
  deriving DecidableEq, Repr

/-- State of `Statement._prepare`'s `replace` closure. -/
structure PrepState (α : Type) where
  param_counter : Nat
  exec_params : List α
  deriving DecidableEq, Repr

def lookupParam {α : Type} (params : List (PKey × Param α)) (k : PKey) :
    Option (Param α) :=
  (params.find? (fun p => p.1 == k)).map (fun p => p.2)

inductive Tok where
  | question
  | named (n : String)
  deriving DecidableEq, Repr

/-- The body of `Statement._prepare`'s `replace` closure for one matched
token: resolve the key (`?` consumes the positional counter, `:name` strips
the colon), report a missing binding, and otherwise emit the driver
placeholder — repeated and `", "`-joined for list values, whose elements are
appended to `exec_params` in order. -/
def replaceMatch {α : Type} (params : List (PKey × Param α)) (placeholder : String)
    (tok : Tok) (st : PrepState α) : Except Err (String × PrepState α) :=
  let key : PKey := match tok with
    | .question => .pos st.param_counter
    | .named n => .named n
  let st' : PrepState α := match tok with
    | .question => { st with param_counter := st.param_counter + 1 }
    | .named _ => st
  match lookupParam params key with
  | none =>
    match key with
    | .pos n => .error (.missingPositionalParameter n)
    | .named s => .error (.missingNamedParameter s)
  | some (.scalar v) =>
    .ok (placeholder, { st' with exec_params := st'.exec_params ++ [v] })
  | some (.pylist vs) =>
    .ok (String.intercalate ", " (List.replicate vs.length placeholder),
      { st' with exec_params := st'.exec_params ++ vs })

def nameStartChar (c : Char) : Bool := c.isAlpha || c == '_'

def nameChar (c : Char) : Bool := c.isAlphanum || c == '_'

def isQuote (c : Char) : Bool := c == '\'' || c == '"'

def headIsNameStart : List Char → Bool
  | [] => false
  | c :: _ => nameStartChar c

/-- Number of quote characters in the remainder, skipping escape pairs;
`none` when the remainder does not scan (dangling backslash, or a backslash
before a newline, which `.` does not match). -/
def quote_parity : List Char → Option Nat
  | [] => some 0
  | c :: rest =>
    if c = '\\' then
      match rest with
      | [] => none
      | c2 :: rest2 => if c2 = '\n' then none else quote_parity rest2
    else if isQuote c then (quote_parity rest).map (· + 1)
    else quote_parity rest

/-- The regex lookahead `(?=(?:(?:\\.|[^'"\\])*['"]...)*...\Z)`. -/
def lookaheadOk (cs : List Char) : Bool :=
  match quote_parity cs with
  | some n => n % 2 == 0
  | none => false

/-- `re.sub` of `Statement._re_params` with `Statement._prepare`'s
replacement closure: `pc` records whether the previous character of the
original input is `:` (the `(?<!:)` lookbehind). -/
def subParams {α : Type} (params : List (PKey × Param α)) (ph : String) :
    Bool → List Char → PrepState α → Except Err (List Char × PrepState α)
  | _, [], st => .ok ([], st)
  | _, '?' :: cs, st =>
    if lookaheadOk cs then
      match replaceMatch params ph .question st with
      | .error e => .error e
      | .ok (rep, st') =>
        match subParams params ph false cs st' with
        | .error e => .error e
        | .ok (out, st'') => .ok (rep.data ++ out, st'')
    else
      match subParams params ph false cs st with
      | .error e => .error e
      | .ok (out, st') => .ok ('?' :: out, st')
  | pc, ':' :: cs, st =>
    if !pc && headIsNameStart cs then
      if lookaheadOk (cs.dropWhile nameChar) then
        match replaceMatch params ph (.named ⟨cs.takeWhile nameChar⟩) st with
        | .error e => .error e
        | .ok (rep, st') =>
          match subParams params ph false (cs.dropWhile nameChar) st' with
          | .error e => .error e
          | .ok (out, st'') => .ok (rep.data ++ out, st'')
      else
        match subParams params ph true cs st with
        | .error e => .error e
        | .ok (out, st') => .ok (':' :: out, st')
    else
      match subParams params ph true cs st with
      | .error e => .error e
      | .ok (out, st') => .ok (':' :: out, st')
  | _, c :: cs, st =>
    match subParams params ph (c == ':') cs st with
    | .error e => .error e
    | .ok (out, st') => .ok (c :: out, st')
  termination_by pc cs st => cs.length
  decreasing_by
    all_goals simp_wf
    all_goals try exact Nat.lt_succ_of_le ((List.dropWhile_sublist _).length_le)
    all_goals omega

/-- `Statement.execute`: rewrite the SQL and collect the outgoing parameter
vector handed to `driver.execute`. -/
def statement_execute {α : Type} (params : List (PKey × Param α)) (ph : String)
    (sql : String) : Except Err (String × List α) :=
  match subParams params ph false sql.data ⟨0, []⟩ with
  | .error e => .error e
  | .ok (out, st) => .ok (⟨out⟩, st.exec_params)

/-! ### Quoted-literal decomposition (spec side)

The claim speaks of placeholders "inside a single- or double-quoted string
literal (with backslash escapes respected)".  `lexSegs` is that reading of an
SQL text: a quote character opens a literal, a backslash escapes the next
character, the matching quote closes it; everything between literals is
outside text.  A `Seg.lit q body` holds the literal's delimiter and its body
with escapes kept verbatim. -/

inductive Seg where
  | outside (cs : List Char)
  | lit (q : Char) (body : List Char)
  deriving DecidableEq, Repr

def segsJoin : List Seg → List Char
  | [] => []
  | Seg.outside cs :: segs => cs ++ segsJoin segs
  | Seg.lit q body :: segs => q :: (body ++ q :: segsJoin segs)

/-- Scan the body of a literal opened by `q`: returns the body (escapes kept)
and the text after the closing quote; `none` on an unterminated literal or a
dangling final backslash. -/
def lexLit (q : Char) : List Char → Option (List Char × List Char)
  | [] => none
  | c :: rest =>
    if c = '\\' then
      match rest with
      | [] => none
      | c2 :: rest2 => (lexLit q rest2).map (fun p => ('\\' :: c2 :: p.1, p.2))
    else if c = q then some ([], rest)
    else (lexLit q rest).map (fun p => (c :: p.1, p.2))

theorem lexLit_length (q : Char) :
    ∀ cs b r, lexLit q cs = some (b, r) → r.length ≤ cs.length := by
  intro cs
  induction cs using lexLit.induct q with
  | case1 =>
    intro b r h
    simp [lexLit] at h
  | case2 =>
    intro b r h
    simp [lexLit] at h
  | case3 c2 rest2 ih =>
    intro b r hx
    unfold lexLit at hx
    rw [if_pos rfl] at hx
    dsimp only at hx
    cases hl : lexLit q rest2 with
    | none => rw [hl] at hx; simp at hx
    | some p =>
      obtain ⟨p1, p2⟩ := p
      rw [hl] at hx
      simp only [Option.map_some', Option.some.injEq, Prod.mk.injEq] at hx
      obtain ⟨hb, hr⟩ := hx
      subst hr
      have := ih p1 p2 hl
      simp only [List.length_cons]
      omega
  | case4 rest2 hq =>
    intro b r hx
    unfold lexLit at hx
    rw [if_neg hq, if_pos rfl] at hx
    simp only [Option.some.injEq, Prod.mk.injEq] at hx
    obtain ⟨hb, hr⟩ := hx
    subst hr
    simp
  | case5 c2 rest2 h1 h2 ih =>
    intro b r hx
    unfold lexLit at hx
    rw [if_neg h1, if_neg h2] at hx
    cases hl : lexLit q rest2 with
    | none => rw [hl] at hx; simp at hx
    | some p =>
      obtain ⟨p1, p2⟩ := p
      rw [hl] at hx
      simp only [Option.map_some', Option.some.injEq, Prod.mk.injEq] at hx
      obtain ⟨hb, hr⟩ := hx
      subst hr
      have := ih p1 p2 hl
      simp only [List.length_cons]
      omega

/-- Decompose an SQL text into alternating outside text and quoted literals;
`none` when a literal is unterminated or ends in a dangling backslash. -/
def lexSegs (cs : List Char) : Option (List Seg) :=
  match hd : cs.dropWhile (fun c => !isQuote c) with
  | [] => some [Seg.outside cs]
  | q :: rest =>
    match hl : lexLit q rest with
    | none => none
    | some (body, rest') =>
      match lexSegs rest' with
      | none => none
      | some segs =>
        some (Seg.outside (cs.takeWhile (fun c => !isQuote c)) :: Seg.lit q body :: segs)
  termination_by cs.length
  decreasing_by
    have h1 : (q :: rest).length ≤ cs.length := by
      rw [← hd]
      exact (List.dropWhile_sublist _).length_le
    have h2 : rest'.length ≤ rest.length := lexLit_length q rest body rest' hl
    simp only [List.length_cons] at h1
    omega

/-- Outside text, as the amended claim constrains it: no quote character (by
construction of the decomposition) and no backslash. -/
def outsideWF (cs : List Char) : Bool :=
  cs.all (fun c => !isQuote c && c != '\\')

/-- Literal body, as the amended claim constrains it: every backslash escapes
a following non-newline character, and no unescaped quote character of
either kind occurs. -/
def bodyWF : List Char → Bool
  | [] => true
  | c :: rest =>
    if c = '\\' then
      match rest with
      | [] => false
      | c2 :: rest2 => c2 != '\n' && bodyWF rest2
    else !isQuote c && bodyWF rest

/-- Well-formed alternation of outside text and quoted literals. -/
def segsOK : List Seg → Bool
  | [] => true
  | [Seg.outside cs] => outsideWF cs
  | Seg.outside cs :: Seg.lit q body :: segs =>
    outsideWF cs && isQuote q && bodyWF body && segsOK segs
  | _ => false

def prependRes {α : Type} (pre : List Char) :
    Except Err (List Char × PrepState α) → Except Err (List Char × PrepState α)
  | .error e => .error e
  | .ok (out, st) => .ok (pre ++ out, st)

/-- The spec-side rewriter for outside text: every placeholder token is
replaced, with no quote tracking at all (`subParams` with the lookahead
deleted). -/
def rewriteOutside {α : Type} (params : List (PKey × Param α)) (ph : String) :
    Bool → List Char → PrepState α → Except Err (List Char × PrepState α)
  | _, [], st => .ok ([], st)
  | _, '?' :: cs, st =>
    match replaceMatch params ph .question st with
    | .error e => .error e
    | .ok (rep, st') => prependRes rep.data (rewriteOutside params ph false cs st')
  | pc, ':' :: cs, st =>
    if !pc && headIsNameStart cs then
      match replaceMatch params ph (.named ⟨cs.takeWhile nameChar⟩) st with
      | .error e => .error e
      | .ok (rep, st') =>
        prependRes rep.data (rewriteOutside params ph false (cs.dropWhile nameChar) st')
    else prependRes [':'] (rewriteOutside params ph true cs st)
  | _, c :: cs, st => prependRes [c] (rewriteOutside params ph (c == ':') cs st)
  termination_by pc cs st => cs.length
  decreasing_by
    all_goals simp_wf
    all_goals try exact Nat.lt_succ_of_le ((List.dropWhile_sublist _).length_le)
    all_goals omega

/-- The spec-side behaviour over a decomposition: outside segments are
rewritten by `rewriteOutside`, literal segments are copied byte-identically
(delimiters and body verbatim). -/
def processSegs {α : Type} (params : List (PKey × Param α)) (ph : String) :
    List Seg → PrepState α → Except Err (List Char × PrepState α)
  | [], st => .ok ([], st)
  | Seg.outside cs :: segs, st =>
    match rewriteOutside params ph false cs st with
    | .error e => .error e
    | .ok (out, st') => prependRes out (processSegs params ph segs st')
  | Seg.lit q body :: segs, st =>
    prependRes (q :: (body ++ [q])) (processSegs params ph segs st)

/-! Unfolding equations for the scanners at each kind of head character. -/

theorem subParams_question {α : Type} (params : List (PKey × Param α)) (ph : String)
    (pc : Bool) (cs : List Char) (st : PrepState α) :
    subParams params ph pc ('?' :: cs) st =
      if lookaheadOk cs then
        match replaceMatch params ph .question st with
        | .error e => .error e
        | .ok (rep, st') =>
          match subParams params ph false cs st' with
          | .error e => .error e
          | .ok (out, st'') => .ok (rep.data ++ out, st'')
      else
        match subParams params ph false cs st with
        | .error e => .error e
        | .ok (out, st') => .ok ('?' :: out, st') := by
  rw [subParams.eq_def]
  rfl

theorem subParams_colon {α : Type} (params : List (PKey × Param α)) (ph : String)
    (pc : Bool) (cs : List Char) (st : PrepState α) :
    subParams params ph pc (':' :: cs) st =
      if !pc && headIsNameStart cs then
        if lookaheadOk (cs.dropWhile nameChar) then
          match replaceMatch params ph (.named ⟨cs.takeWhile nameChar⟩) st with
          | .error e => .error e
          | .ok (rep, st') =>
            match subParams params ph false (cs.dropWhile nameChar) st' with
            | .error e => .error e
            | .ok (out, st'') => .ok (rep.data ++ out, st'')
        else
          match subParams params ph true cs st with
          | .error e => .error e
          | .ok (out, st') => .ok (':' :: out, st')
      else
        match subParams params ph true cs st with
        | .error e => .error e
        | .ok (out, st') => .ok (':' :: out, st') := by
  rw [subParams.eq_def]
  rfl

theorem subParams_other {α : Type} (params : List (PKey × Param α)) (ph : String)
    (c : Char) (h1 : c ≠ '?') (h2 : c ≠ ':') (pc : Bool) (cs : List Char)
    (st : PrepState α) :
    subParams params ph pc (c :: cs) st =
      match subParams params ph (c == ':') cs st with
      | .error e => .error e
      | .ok (out, st') => .ok (c :: out, st') := by
  rw [subParams.eq_def]
  split
  · rename_i heq
    simp at heq
  · rename_i heq
    injection heq with ha hb
    exact absurd ha h1
  · rename_i heq
    injection heq with ha hb
    exact absurd ha h2
  · rename_i x hx1 hx2 heq
    injection heq with ha hb
    subst ha
    subst hb
    rfl

theorem rewriteOutside_question {α : Type} (params : List (PKey × Param α))
    (ph : String) (pc : Bool) (cs : List Char) (st : PrepState α) :
    rewriteOutside params ph pc ('?' :: cs) st =
      match replaceMatch params ph .question st with
      | .error e => .error e
      | .ok (rep, st') => prependRes rep.data (rewriteOutside params ph false cs st') := by
  rw [rewriteOutside.eq_def]
  rfl

theorem rewriteOutside_colon {α : Type} (params : List (PKey × Param α))
    (ph : String) (pc : Bool) (cs : List Char) (st : PrepState α) :
    rewriteOutside params ph pc (':' :: cs) st =
      if !pc && headIsNameStart cs then
        match replaceMatch params ph (.named ⟨cs.takeWhile nameChar⟩) st with
        | .error e => .error e
        | .ok (rep, st') =>
          prependRes rep.data (rewriteOutside params ph false (cs.dropWhile nameChar) st')
      else prependRes [':'] (rewriteOutside params ph true cs st) := by
  rw [rewriteOutside.eq_def]
  rfl

theorem rewriteOutside_other {α : Type} (params : List (PKey × Param α))
    (ph : String) (c : Char) (h1 : c ≠ '?') (h2 : c ≠ ':') (pc : Bool)
    (cs : List Char) (st : PrepState α) :
    rewriteOutside params ph pc (c :: cs) st =
      prependRes [c] (rewriteOutside params ph (c == ':') cs st) := by
  rw [rewriteOutside.eq_def]
  split
  · rename_i heq
    simp at heq
  · rename_i heq
    injection heq with ha hb
    exact absurd ha h1
  · rename_i heq
    injection heq with ha hb
    exact absurd ha h2
  · rename_i x hx1 hx2 heq
    injection heq with ha hb
    subst ha
    subst hb
    rfl

/-! Character-class facts and parity bookkeeping. -/

theorem isQuote_cases (c : Char) (h : isQuote c = true) : c = '\'' ∨ c = '"' := by
  simpa [isQuote] using h

theorem nameChar_not_backslash (c : Char) (h : nameChar c = true) : c ≠ '\\' := by
  intro he
  subst he
  simp [nameChar] at h

theorem nameChar_not_quote (c : Char) (h : nameChar c = true) : isQuote c = false := by
  by_contra hq
  rcases isQuote_cases c (by simpa using hq) with he | he <;> subst he <;>
    simp [nameChar] at h

theorem quote_not_nameChar (c : Char) (h : isQuote c = true) : nameChar c = false := by
  rcases isQuote_cases c h with he | he <;> subst he <;> rfl

theorem quote_not_nameStart (c : Char) (h : isQuote c = true) :
    nameStartChar c = false := by
  rcases isQuote_cases c h with he | he <;> subst he <;> rfl

theorem lookaheadOk_of_even (cs : List Char) (n : Nat)
    (h : quote_parity cs = some (2 * n)) : lookaheadOk cs = true := by
  simp [lookaheadOk, h, Nat.mul_mod_right]

theorem lookaheadOk_of_odd (cs : List Char) (n : Nat)
    (h : quote_parity cs = some (2 * n + 1)) : lookaheadOk cs = false := by
  simp [lookaheadOk, h]
  omega

theorem outsideWF_cons (c : Char) (cs : List Char)
    (h : outsideWF (c :: cs) = true) :
    isQuote c = false ∧ c ≠ '\\' ∧ outsideWF cs = true := by
  simp only [outsideWF, List.all_cons, Bool.and_eq_true, Bool.not_eq_true',
    bne_iff_ne, ne_eq] at h
  exact ⟨h.1.1, h.1.2, by simpa [outsideWF] using h.2⟩

theorem outsideWF_parity (cs : List Char) (h : outsideWF cs = true)
    (tail : List Char) : quote_parity (cs ++ tail) = quote_parity tail := by
  induction cs with
  | nil => rfl
  | cons c cs ih =>
    obtain ⟨hq, hb, hcs⟩ := outsideWF_cons c cs h
    rw [List.cons_append]
    conv_lhs => rw [quote_parity.eq_def]
    dsimp only
    rw [if_neg hb, if_neg (by simp [hq])]
    exact ih hcs

theorem bodyWF_parity (body : List Char) (h : bodyWF body = true)
    (tail : List Char) : quote_parity (body ++ tail) = quote_parity tail := by
  induction body using bodyWF.induct with
  | case1 => rfl
  | case2 => simp [bodyWF] at h
  | case3 c2 rest2 ih =>
    unfold bodyWF at h
    rw [if_pos rfl] at h
    dsimp only at h
    simp only [Bool.and_eq_true, bne_iff_ne, ne_eq] at h
    rw [List.cons_append, List.cons_append]
    conv_lhs => rw [quote_parity.eq_def]
    dsimp only
    rw [if_pos rfl, if_neg h.1]
    exact ih h.2
  | case4 c rest hne ih =>
    unfold bodyWF at h
    rw [if_neg hne] at h
    simp only [Bool.and_eq_true, Bool.not_eq_true'] at h
    rw [List.cons_append]
    conv_lhs => rw [quote_parity.eq_def]
    dsimp only
    rw [if_neg hne, if_neg (by simp [h.1])]
    exact ih h.2

theorem bodyWF_cons (c : Char) (rest : List Char) (hb : c ≠ '\\')
    (h : bodyWF (c :: rest) = true) :
    isQuote c = false ∧ bodyWF rest = true := by
  unfold bodyWF at h
  rw [if_neg hb] at h
  simp only [Bool.and_eq_true, Bool.not_eq_true'] at h
  exact h

theorem bodyWF_pair (c2 : Char) (rest2 : List Char)
    (h : bodyWF ('\\' :: c2 :: rest2) = true) :
    c2 ≠ '\n' ∧ bodyWF rest2 = true := by
  unfold bodyWF at h
  rw [if_pos rfl] at h
  dsimp only at h
  simp only [Bool.and_eq_true, bne_iff_ne, ne_eq] at h
  exact h

theorem bodyWF_dropWhile_nameChar (body : List Char) (h : bodyWF body = true) :
    bodyWF (body.dropWhile nameChar) = true := by
  induction body with
  | nil => exact h
  | cons c rest ih =>
    rw [List.dropWhile_cons]
    by_cases hc : nameChar c = true
    · rw [if_pos hc]
      exact ih (bodyWF_cons c rest (nameChar_not_backslash c hc) h).2
    · rw [if_neg hc]
      exact h

theorem outsideWF_dropWhile_nameChar (cs : List Char) (h : outsideWF cs = true) :
    outsideWF (cs.dropWhile nameChar) = true := by
  induction cs with
  | nil => exact h
  | cons c rest ih =>
    obtain ⟨hq, hb, hrest⟩ := outsideWF_cons c rest h
    rw [List.dropWhile_cons]
    by_cases hc : nameChar c = true
    · rw [if_pos hc]
      exact ih hrest
    · rw [if_neg hc]
      exact h

/-- The head of `tail` (if any) fails `p`. -/
def headFails (p : Char → Bool) : List Char → Prop
  | [] => True
  | c :: _ => p c = false

theorem takeWhile_append_headFails (p : Char → Bool) (tail : List Char)
    (htail : headFails p tail) (l : List Char) :
    (l ++ tail).takeWhile p = l.takeWhile p ∧
      (l ++ tail).dropWhile p = l.dropWhile p ++ tail := by
  induction l with
  | nil =>
    cases tail with
    | nil => exact ⟨rfl, rfl⟩
    | cons c rest =>
      simp only [headFails] at htail
      simp [List.takeWhile_cons, List.dropWhile_cons, htail]
  | cons c l ih =>
    rw [List.cons_append]
    by_cases hc : p c = true
    · simp only [List.takeWhile_cons, List.dropWhile_cons, hc, if_pos]
      exact ⟨by rw [ih.1], by rw [ih.2]⟩
    · simp only [List.takeWhile_cons, List.dropWhile_cons, hc]
      exact ⟨rfl, rfl⟩

/-- Either end of input or a quote character next: the shape of the text that
follows an outside segment. -/
def headQuoteOrNil : List Char → Prop
  | [] => True
  | c :: _ => isQuote c = true

theorem headIsNameStart_append (l tail : List Char) (htail : headQuoteOrNil tail) :
    headIsNameStart (l ++ tail) = headIsNameStart l := by
  cases l with
  | nil =>
    cases tail with
    | nil => rfl
    | cons c rest =>
      simp only [headQuoteOrNil] at htail
      simp [headIsNameStart, quote_not_nameStart c htail]
  | cons c l => rfl

theorem headFails_of_headQuoteOrNil (tail : List Char) (h : headQuoteOrNil tail) :
    headFails nameChar tail := by
  cases tail with
  | nil => trivial
  | cons c rest => exact quote_not_nameChar c h

theorem quote_ne_question (q : Char) (h : isQuote q = true) : q ≠ '?' := by
  rcases isQuote_cases q h with he | he <;> subst he <;> decide

theorem quote_ne_colon (q : Char) (h : isQuote q = true) : q ≠ ':' := by
  rcases isQuote_cases q h with he | he <;> subst he <;> decide

theorem quote_ne_backslash (q : Char) (h : isQuote q = true) : q ≠ '\\' := by
  rcases isQuote_cases q h with he | he <;> subst he <;> decide

theorem quote_beq_colon (q : Char) (h : isQuote q = true) : (q == ':') = false := by
  rcases isQuote_cases q h with he | he <;> subst he <;> rfl

theorem quote_parity_quote_cons (q : Char) (h : isQuote q = true)
    (tail : List Char) :
    quote_parity (q :: tail) = (quote_parity tail).map (· + 1) := by
  conv_lhs => rw [quote_parity.eq_def]
  dsimp only
  rw [if_neg (quote_ne_backslash q h), if_pos h]

theorem prependRes_nil {α : Type} (r : Except Err (List Char × PrepState α)) :
    prependRes [] r = r := by
  cases r with
  | error e => rfl
  | ok p =>
    obtain ⟨out, st⟩ := p
    rfl

theorem prependRes_append {α : Type} (a b : List Char)
    (r : Except Err (List Char × PrepState α)) :
    prependRes (a ++ b) r = prependRes a (prependRes b r) := by
  cases r with
  | error e => rfl
  | ok p =>
    obtain ⟨out, st⟩ := p
    simp [prependRes]

/-- Sequencing of a first rewritten section with a continuation on the
resulting state. -/
def chainRes {α : Type} (first : Except Err (List Char × PrepState α))
    (second : PrepState α → Except Err (List Char × PrepState α)) :
    Except Err (List Char × PrepState α) :=
  match first with
  | .error e => .error e
  | .ok (out, st) => prependRes out (second st)

theorem chainRes_prependRes {α : Type} (a : List Char)
    (r : Except Err (List Char × PrepState α))
    (f : PrepState α → Except Err (List Char × PrepState α)) :
    chainRes (prependRes a r) f = prependRes a (chainRes r f) := by
  cases r with
  | error e => rfl
  | ok p =>
    obtain ⟨out, st⟩ := p
    cases hf : f st with
    | error e => simp [chainRes, prependRes, hf]
    | ok p2 =>
      obtain ⟨out2, st2⟩ := p2
      simp [chainRes, prependRes, hf, List.append_assoc]

theorem subParams_nil {α : Type} (params : List (PKey × Param α)) (ph : String)
    (pc : Bool) (st : PrepState α) :
    subParams params ph pc [] st = .ok ([], st) := by
  rw [subParams.eq_def]

theorem matchRes_eq_prependRes {α : Type} (a : List Char)
    (r : Except Err (List Char × PrepState α)) :
    (match r with
      | .error e => .error e
      | .ok (out, st') => (.ok (a ++ out, st') : Except Err (List Char × PrepState α))) =
      prependRes a r := by
  cases r with
  | error e => rfl
  | ok p =>
    obtain ⟨out, st⟩ := p
    rfl

theorem consRes_eq_prependRes {α : Type} (c : Char)
    (r : Except Err (List Char × PrepState α)) :
    (match r with
      | .error e => .error e
      | .ok (out, st') => (.ok (c :: out, st') : Except Err (List Char × PrepState α))) =
      prependRes [c] r := by
  cases r with
  | error e => rfl
  | ok p =>
    obtain ⟨out, st⟩ := p
    rfl

/-- One scanning step at a position where both candidate lookaheads fail:
whatever the character, it is emitted verbatim and scanning continues. -/
theorem one_char_preserved {α : Type} (params : List (PKey × Param α)) (ph : String)
    (c : Char) (rest : List Char)
    (hq1 : lookaheadOk rest = false)
    (hq2 : lookaheadOk (rest.dropWhile nameChar) = false)
    (pc : Bool) (st : PrepState α) :
    ∃ pc2 : Bool, subParams params ph pc (c :: rest) st =
      prependRes [c] (subParams params ph pc2 rest st) := by
  by_cases hc1 : c = '?'
  · subst hc1
    refine ⟨false, ?_⟩
    rw [subParams_question, if_neg (by simp [hq1])]
    exact consRes_eq_prependRes '?' _
  · by_cases hc2 : c = ':'
    · subst hc2
      refine ⟨true, ?_⟩
      rw [subParams_colon]
      by_cases hcond : (!pc && headIsNameStart rest) = true
      · rw [if_pos hcond, if_neg (by simp [hq2])]
        exact consRes_eq_prependRes ':' _
      · rw [if_neg hcond]
        exact consRes_eq_prependRes ':' _
    · refine ⟨(c == ':'), ?_⟩
      rw [subParams_other params ph c hc1 hc2]
      exact consRes_eq_prependRes c _

/-- Scanning a well-formed literal body: every lookahead inside sees an odd
number of remaining quotes, so every character is emitted verbatim. -/
theorem lit_body_scan {α : Type} (params : List (PKey × Param α)) (ph : String)
    (tail : List Char) (hodd : ∃ n, quote_parity tail = some (2 * n + 1))
    (hhf : headFails nameChar tail) :
    ∀ body, bodyWF body = true → ∀ (pc : Bool) (st : PrepState α),
      ∃ pc2 : Bool, subParams params ph pc (body ++ tail) st =
        prependRes body (subParams params ph pc2 tail st) := by
  intro body
  induction body using bodyWF.induct with
  | case1 =>
    intro h pc st
    exact ⟨pc, by rw [List.nil_append, prependRes_nil]⟩
  | case2 =>
    intro h pc st
    simp [bodyWF] at h
  | case3 c2 rest2 ih =>
    intro h pc st
    obtain ⟨hnl, hwf2⟩ := bodyWF_pair c2 rest2 h
    have step1 : subParams params ph pc (('\\' :: c2 :: rest2) ++ tail) st =
        prependRes ['\\']
          (subParams params ph ('\\' == ':') (c2 :: (rest2 ++ tail)) st) := by
      rw [List.cons_append, List.cons_append,
        subParams_other params ph '\\' (by decide) (by decide), consRes_eq_prependRes]
    have hq1 : lookaheadOk (rest2 ++ tail) = false := by
      obtain ⟨n, hn⟩ := hodd
      exact lookaheadOk_of_odd _ n (by rw [bodyWF_parity rest2 hwf2 tail, hn])
    have hq2 : lookaheadOk ((rest2 ++ tail).dropWhile nameChar) = false := by
      obtain ⟨n, hn⟩ := hodd
      rw [(takeWhile_append_headFails nameChar tail hhf rest2).2]
      refine lookaheadOk_of_odd _ n ?_
      rw [bodyWF_parity _ (bodyWF_dropWhile_nameChar rest2 hwf2) tail, hn]
    obtain ⟨pcm, hm⟩ :=
      one_char_preserved params ph c2 (rest2 ++ tail) hq1 hq2 ('\\' == ':') st
    obtain ⟨pc2, hrec⟩ := ih hwf2 pcm st
    refine ⟨pc2, ?_⟩
    rw [step1, hm, hrec, ← prependRes_append, ← prependRes_append]
    rfl
  | case4 c rest hne ih =>
    intro h pc st
    obtain ⟨hq, hwf2⟩ := bodyWF_cons c rest hne h
    have hq1 : lookaheadOk (rest ++ tail) = false := by
      obtain ⟨n, hn⟩ := hodd
      exact lookaheadOk_of_odd _ n (by rw [bodyWF_parity rest hwf2 tail, hn])
    have hq2 : lookaheadOk ((rest ++ tail).dropWhile nameChar) = false := by
      obtain ⟨n, hn⟩ := hodd
      rw [(takeWhile_append_headFails nameChar tail hhf rest).2]
      refine lookaheadOk_of_odd _ n ?_
      rw [bodyWF_parity _ (bodyWF_dropWhile_nameChar rest hwf2) tail, hn]
    obtain ⟨pcm, hm⟩ := one_char_preserved params ph c (rest ++ tail) hq1 hq2 pc st
    obtain ⟨pc2, hrec⟩ := ih hwf2 pcm st
    refine ⟨pc2, ?_⟩
    rw [List.cons_append, hm, hrec, ← prependRes_append]
    rfl

/-- Scanning a whole well-formed literal `q body q` copies it verbatim and
resumes after the closing quote with a clear lookbehind. -/
theorem lit_scan {α : Type} (params : List (PKey × Param α)) (ph : String)
    (q : Char) (hq : isQuote q = true) (body : List Char) (hwf : bodyWF body = true)
    (tail : List Char) (heven : ∃ n, quote_parity tail = some (2 * n))
    (pc : Bool) (st : PrepState α) :
    subParams params ph pc (q :: (body ++ q :: tail)) st =
      prependRes (q :: (body ++ [q])) (subParams params ph false tail st) := by
  have hodd : ∃ n, quote_parity (q :: tail) = some (2 * n + 1) := by
    obtain ⟨n, hn⟩ := heven
    exact ⟨n, by rw [quote_parity_quote_cons q hq, hn]; rfl⟩
  have hhf : headFails nameChar (q :: tail) := quote_not_nameChar q hq
  have step1 : subParams params ph pc (q :: (body ++ q :: tail)) st =
      prependRes [q] (subParams params ph (q == ':') (body ++ q :: tail) st) := by
    rw [subParams_other params ph q (quote_ne_question q hq) (quote_ne_colon q hq),
      consRes_eq_prependRes]
  obtain ⟨pcm, hm⟩ := lit_body_scan params ph (q :: tail) hodd hhf body hwf (q == ':') st
  have step3 : subParams params ph pcm (q :: tail) st =
      prependRes [q] (subParams params ph false tail st) := by
    rw [subParams_other params ph q (quote_ne_question q hq) (quote_ne_colon q hq),
      consRes_eq_prependRes, quote_beq_colon q hq]
  rw [step1, hm, step3, ← prependRes_append, ← prependRes_append]
  rfl

/-- Scanning well-formed outside text followed by an even-parity remainder:
the lookahead always holds, so the scan coincides with the unconditional
rewriter `rewriteOutside`, then continues on the remainder. -/
theorem out_scan {α : Type} (params : List (PKey × Param α)) (ph : String)
    (tail : List Char) (heven : ∃ n, quote_parity tail = some (2 * n))
    (hqn : headQuoteOrNil tail) :
    ∀ (pc : Bool) (cs : List Char) (st : PrepState α), outsideWF cs = true →
      ∃ pc2 : Bool, subParams params ph pc (cs ++ tail) st =
        chainRes (rewriteOutside params ph pc cs st)
          (fun st' => subParams params ph pc2 tail st') := by
  have hhf : headFails nameChar tail := headFails_of_headQuoteOrNil tail hqn
  intro pc cs st
  induction pc, cs, st using rewriteOutside.induct params ph with
  | case1 pc st =>
    intro h
    refine ⟨pc, ?_⟩
    rw [List.nil_append, rewriteOutside.eq_def]
    dsimp only [chainRes]
    rw [prependRes_nil]
  | case2 pc cs st e herr =>
    intro h
    obtain ⟨_, _, hwf⟩ := outsideWF_cons '?' cs h
    refine ⟨pc, ?_⟩
    rw [List.cons_append, subParams_question,
      if_pos (by
        obtain ⟨n, hn⟩ := heven
        exact lookaheadOk_of_even _ n (by rw [outsideWF_parity cs hwf tail, hn])),
      herr, rewriteOutside_question, herr]
    rfl
  | case3 pc cs st rep st' hok ih =>
    intro h
    obtain ⟨_, _, hwf⟩ := outsideWF_cons '?' cs h
    obtain ⟨pc2, hrec⟩ := ih hwf
    refine ⟨pc2, ?_⟩
    rw [List.cons_append, subParams_question,
      if_pos (by
        obtain ⟨n, hn⟩ := heven
        exact lookaheadOk_of_even _ n (by rw [outsideWF_parity cs hwf tail, hn])),
      hok]
    dsimp only
    rw [matchRes_eq_prependRes, hrec, rewriteOutside_question, hok]
    dsimp only
    rw [chainRes_prependRes]
  | case4 pc cs st hcond e herr =>
    intro h
    obtain ⟨_, _, hwf⟩ := outsideWF_cons ':' cs h
    refine ⟨pc, ?_⟩
    have hsplit := takeWhile_append_headFails nameChar tail hhf cs
    rw [List.cons_append, subParams_colon,
      if_pos (by rw [headIsNameStart_append cs tail hqn]; exact hcond),
      if_pos (by
        obtain ⟨n, hn⟩ := heven
        rw [hsplit.2]
        refine lookaheadOk_of_even _ n ?_
        rw [outsideWF_parity _ (outsideWF_dropWhile_nameChar cs hwf) tail, hn]),
      hsplit.1, herr, rewriteOutside_colon, if_pos hcond, herr]
    rfl
  | case5 pc cs st hcond rep st' hok ih =>
    intro h
    obtain ⟨_, _, hwf⟩ := outsideWF_cons ':' cs h
    obtain ⟨pc2, hrec⟩ := ih (outsideWF_dropWhile_nameChar cs hwf)
    refine ⟨pc2, ?_⟩
    have hsplit := takeWhile_append_headFails nameChar tail hhf cs
    rw [List.cons_append, subParams_colon,
      if_pos (by rw [headIsNameStart_append cs tail hqn]; exact hcond),
      if_pos (by
        obtain ⟨n, hn⟩ := heven
        rw [hsplit.2]
        refine lookaheadOk_of_even _ n ?_
        rw [outsideWF_parity _ (outsideWF_dropWhile_nameChar cs hwf) tail, hn]),
      hsplit.1, hok]
    dsimp only
    rw [hsplit.2, matchRes_eq_prependRes, hrec, rewriteOutside_colon,
      if_pos hcond, hok]
    dsimp only
    rw [chainRes_prependRes]
  | case6 pc cs st hcond ih =>
    intro h
    obtain ⟨_, _, hwf⟩ := outsideWF_cons ':' cs h
    obtain ⟨pc2, hrec⟩ := ih hwf
    refine ⟨pc2, ?_⟩
    rw [List.cons_append, subParams_colon,
      if_neg (by rw [headIsNameStart_append cs tail hqn]; exact hcond),
      consRes_eq_prependRes, hrec, rewriteOutside_colon, if_neg hcond,
      chainRes_prependRes]
  | case7 pc c cs st h1 h2 ih =>
    intro h
    obtain ⟨_, _, hwf⟩ := outsideWF_cons c cs h
    obtain ⟨pc2, hrec⟩ := ih hwf
    refine ⟨pc2, ?_⟩
    rw [List.cons_append, subParams_other params ph c (fun he => h1 he) (fun he => h2 he),
      consRes_eq_prependRes, hrec,
      rewriteOutside_other params ph c (fun he => h1 he) (fun he => h2 he),
      chainRes_prependRes]

theorem segsOK_parity :
    ∀ segs, segsOK segs = true →
      ∃ n, quote_parity (segsJoin segs) = some (2 * n) := by
  intro segs
  induction segs using segsOK.induct with
  | case1 =>
    intro _
    exact ⟨0, rfl⟩
  | case2 cs =>
    intro h
    have hwf : outsideWF cs = true := by simpa [segsOK] using h
    refine ⟨0, ?_⟩
    have := outsideWF_parity cs hwf []
    rw [List.append_nil] at this
    simp only [segsJoin, List.append_nil]
    rw [this]
    rfl
  | case3 cs q body segs ih =>
    intro h
    simp only [segsOK, Bool.and_eq_true] at h
    obtain ⟨⟨⟨hcs, hq⟩, hbody⟩, hsegs⟩ := h
    obtain ⟨n, hn⟩ := ih hsegs
    refine ⟨n + 1, ?_⟩
    simp only [segsJoin]
    rw [outsideWF_parity cs hcs, quote_parity_quote_cons q hq,
      bodyWF_parity body hbody, quote_parity_quote_cons q hq, hn]
    simp
    omega
  | case4 t h1 h2 h3 =>
    intro h
    exfalso
    cases t with
    | nil => exact h1 rfl
    | cons s rest =>
      cases s with
      | outside cs =>
        cases rest with
        | nil => exact h2 cs rfl
        | cons s2 rest2 =>
          cases s2 with
          | outside cs2 => simp [segsOK] at h
          | lit q body => exact h3 cs q body rest2 rfl
      | lit q body => simp [segsOK] at h

/-- The scanner over a whole well-formed decomposition equals the spec-side
segment processor: outside text is rewritten unconditionally, literals are
copied byte-identically. -/
theorem subParams_eq_processSegs {α : Type} (params : List (PKey × Param α))
    (ph : String) :
    ∀ segs, segsOK segs = true → ∀ st : PrepState α,
      subParams params ph false (segsJoin segs) st = processSegs params ph segs st := by
  intro segs
  induction segs using segsOK.induct with
  | case1 =>
    intro _ st
    rw [segsJoin, subParams_nil]
    rfl
  | case2 cs =>
    intro h st
    have hwf : outsideWF cs = true := by simpa [segsOK] using h
    obtain ⟨pc2, hscan⟩ :=
      out_scan params ph [] ⟨0, rfl⟩ trivial false cs st hwf
    simp only [segsJoin]
    rw [hscan]
    simp only [processSegs, chainRes]
    cases hro : rewriteOutside params ph false cs st with
    | error e => rfl
    | ok p =>
      obtain ⟨out, st'⟩ := p
      dsimp only
      rw [subParams_nil]
  | case3 cs q body segs ih =>
    intro h st
    simp only [segsOK, Bool.and_eq_true] at h
    obtain ⟨⟨⟨hcs, hq⟩, hbody⟩, hsegs⟩ := h
    have heven : ∃ n, quote_parity (q :: (body ++ q :: segsJoin segs)) = some (2 * n) := by
      obtain ⟨n, hn⟩ := segsOK_parity segs hsegs
      refine ⟨n + 1, ?_⟩
      rw [quote_parity_quote_cons q hq, bodyWF_parity body hbody,
        quote_parity_quote_cons q hq, hn]
      simp
      omega
    obtain ⟨pc2, hscan⟩ :=
      out_scan params ph (q :: (body ++ q :: segsJoin segs)) heven hq false cs st hcs
    simp only [segsJoin]
    rw [hscan]
    simp only [processSegs, chainRes]
    cases hro : rewriteOutside params ph false cs st with
    | error e => rfl
    | ok p =>
      obtain ⟨out, st'⟩ := p
      dsimp only
      rw [lit_scan params ph q hq body hbody (segsJoin segs)
        (segsOK_parity segs hsegs) pc2 st', ih hsegs st']
  | case4 t h1 h2 h3 =>
    intro h st
    exfalso
    cases t with
    | nil => exact h1 rfl
    | cons s rest =>
      cases s with
      | outside cs =>
        cases rest with
        | nil => exact h2 cs rfl
        | cons s2 rest2 =>
          cases s2 with
          | outside cs2 => simp [segsOK] at h
          | lit q body => exact h3 cs q body rest2 rfl
      | lit q body => simp [segsOK] at h

/-! Fuel-indexed mirrors of the well-founded scanners.  The mirrors are
structural in the fuel, so a concrete run reduces definitionally (the
well-founded originals do not); with fuel at least the text length they
agree with the originals. -/

def subParamsF {α : Type} (params : List (PKey × Param α)) (ph : String) :
    Nat → Bool → List Char → PrepState α → Except Err (List Char × PrepState α)
  | _, _, [], st => .ok ([], st)
  | 0, _, _, st => .ok ([], st)
  | fuel + 1, _, '?' :: cs, st =>
    if lookaheadOk cs then
      match replaceMatch params ph .question st with
      | .error e => .error e
      | .ok (rep, st') =>
        match subParamsF params ph fuel false cs st' with
        | .error e => .error e
        | .ok (out, st'') => .ok (rep.data ++ out, st'')
    else
      match subParamsF params ph fuel false cs st with
      | .error e => .error e
      | .ok (out, st') => .ok ('?' :: out, st')
  | fuel + 1, pc, ':' :: cs, st =>
    if !pc && headIsNameStart cs then
      if lookaheadOk (cs.dropWhile nameChar) then
        match replaceMatch params ph (.named ⟨cs.takeWhile nameChar⟩) st with
        | .error e => .error e
        | .ok (rep, st') =>
          match subParamsF params ph fuel false (cs.dropWhile nameChar) st' with
          | .error e => .error e
          | .ok (out, st'') => .ok (rep.data ++ out, st'')
      else
        match subParamsF params ph fuel true cs st with
        | .error e => .error e
        | .ok (out, st') => .ok (':' :: out, st')
    else
      match subParamsF params ph fuel true cs st with
      | .error e => .error e
      | .ok (out, st') => .ok (':' :: out, st')
  | fuel + 1, _, c :: cs, st =>
    match subParamsF params ph fuel (c == ':') cs st with
    | .error e => .error e
    | .ok (out, st') => .ok (c :: out, st')

theorem subParamsF_question {α : Type} (params : List (PKey × Param α)) (ph : String)
    (fuel : Nat) (pc : Bool) (cs : List Char) (st : PrepState α) :
    subParamsF params ph (fuel + 1) pc ('?' :: cs) st =
      if lookaheadOk cs then
        match replaceMatch params ph .question st with
        | .error e => .error e
        | .ok (rep, st') =>
          match subParamsF params ph fuel false cs st' with
          | .error e => .error e
          | .ok (out, st'') => .ok (rep.data ++ out, st'')
      else
        match subParamsF params ph fuel false cs st with
        | .error e => .error e
        | .ok (out, st') => .ok ('?' :: out, st') := by
  rw [subParamsF.eq_def]
  rfl

theorem subParamsF_colon {α : Type} (params : List (PKey × Param α)) (ph : String)
    (fuel : Nat) (pc : Bool) (cs : List Char) (st : PrepState α) :
    subParamsF params ph (fuel + 1) pc (':' :: cs) st =
      if !pc && headIsNameStart cs then
        if lookaheadOk (cs.dropWhile nameChar) then
          match replaceMatch params ph (.named ⟨cs.takeWhile nameChar⟩) st with
          | .error e => .error e
          | .ok (rep, st') =>
            match subParamsF params ph fuel false (cs.dropWhile nameChar) st' with
            | .error e => .error e
            | .ok (out, st'') => .ok (rep.data ++ out, st'')
        else
          match subParamsF params ph fuel true cs st with
          | .error e => .error e
          | .ok (out, st') => .ok (':' :: out, st')
      else
        match subParamsF params ph fuel true cs st with
        | .error e => .error e
        | .ok (out, st') => .ok (':' :: out, st') := by
  rw [subParamsF.eq_def]
  rfl

theorem subParamsF_other {α : Type} (params : List (PKey × Param α)) (ph : String)
    (fuel : Nat) (c : Char) (h1 : c ≠ '?') (h2 : c ≠ ':') (pc : Bool)
    (cs : List Char) (st : PrepState α) :
    subParamsF params ph (fuel + 1) pc (c :: cs) st =
      match subParamsF params ph fuel (c == ':') cs st with
      | .error e => .error e
      | .ok (out, st') => .ok (c :: out, st') := by
  rw [subParamsF.eq_def]
  split
  · rename_i heq
    simp at heq
  · rename_i hfu htr
    omega
  · rename_i hfu heq
    injection heq with ha hb
    exact absurd ha h1
  · rename_i hfu heq
    injection heq with ha hb
    exact absurd ha h2
  · rename_i hfu heq
    injection hfu with hfu
    injection heq with ha hb
    subst hfu
    subst ha
    subst hb
    rfl

theorem subParamsF_eq {α : Type} (params : List (PKey × Param α)) (ph : String) :
    ∀ (fuel : Nat) (pc : Bool) (cs : List Char) (st : PrepState α),
      cs.length ≤ fuel →
      subParamsF params ph fuel pc cs st = subParams params ph pc cs st := by
  intro fuel
  induction fuel with
  | zero =>
    intro pc cs st hle
    have : cs = [] := List.eq_nil_of_length_eq_zero (Nat.le_zero.mp hle)
    subst this
    rw [subParams_nil]
    rfl
  | succ fuel ih =>
    intro pc cs st hle
    cases cs with
    | nil =>
      rw [subParams_nil]
      rfl
    | cons c cs' =>
      have hlen : cs'.length ≤ fuel := by
        simp only [List.length_cons] at hle
        omega
      by_cases hq : c = '?'
      · subst hq
        rw [subParamsF_question, subParams_question]
        by_cases hla : lookaheadOk cs'
        · rw [if_pos hla, if_pos hla]
          cases hrm : replaceMatch params ph .question st with
          | error e => rfl
          | ok p =>
            obtain ⟨rep, st1⟩ := p
            dsimp only
            rw [ih false cs' st1 hlen]
        · rw [if_neg hla, if_neg hla]
          rw [ih false cs' st hlen]
      · by_cases hc : c = ':'
        · subst hc
          rw [subParamsF_colon, subParams_colon]
          by_cases hns : !pc && headIsNameStart cs'
          · rw [if_pos hns, if_pos hns]
            by_cases hla : lookaheadOk (cs'.dropWhile nameChar)
            · rw [if_pos hla, if_pos hla]
              cases hrm : replaceMatch params ph (.named ⟨cs'.takeWhile nameChar⟩) st with
              | error e => rfl
              | ok p =>
                obtain ⟨rep, st1⟩ := p
                dsimp only
                rw [ih false (cs'.dropWhile nameChar) st1
                  (le_trans ((List.dropWhile_sublist _).length_le) hlen)]
            · rw [if_neg hla, if_neg hla]
              rw [ih true cs' st hlen]
          · rw [if_neg hns, if_neg hns]
            rw [ih true cs' st hlen]
        · rw [subParamsF_other params ph fuel c hq hc,
            subParams_other params ph c hq hc]
          rw [ih (c == ':') cs' st hlen]

theorem statement_execute_eq_fuel {α : Type} (params : List (PKey × Param α))
    (ph : String) (sql : String) :
    statement_execute params ph sql =
      match subParamsF params ph sql.data.length false sql.data ⟨0, []⟩ with
      | .error e => .error e
      | .ok (out, st) => .ok (⟨out⟩, st.exec_params) := by
  unfold statement_execute
  rw [subParamsF_eq params ph sql.data.length false sql.data ⟨0, []⟩ (le_refl _)]

def rewriteOutsideF {α : Type} (params : List (PKey × Param α)) (ph : String) :
    Nat → Bool → List Char → PrepState α → Except Err (List Char × PrepState α)
  | _, _, [], st => .ok ([], st)
  | 0, _, _, st => .ok ([], st)
  | fuel + 1, _, '?' :: cs, st =>
    match replaceMatch params ph .question st with
    | .error e => .error e
    | .ok (rep, st') => prependRes rep.data (rewriteOutsideF params ph fuel false cs st')
  | fuel + 1, pc, ':' :: cs, st =>
    if !pc && headIsNameStart cs then
      match replaceMatch params ph (.named ⟨cs.takeWhile nameChar⟩) st with
      | .error e => .error e
      | .ok (rep, st') =>
        prependRes rep.data (rewriteOutsideF params ph fuel false (cs.dropWhile nameChar) st')
    else prependRes [':'] (rewriteOutsideF params ph fuel true cs st)
  | fuel + 1, _, c :: cs, st =>
    prependRes [c] (rewriteOutsideF params ph fuel (c == ':') cs st)

theorem rewriteOutsideF_question {α : Type} (params : List (PKey × Param α))
    (ph : String) (fuel : Nat) (pc : Bool) (cs : List Char) (st : PrepState α) :
    rewriteOutsideF params ph (fuel + 1) pc ('?' :: cs) st =
      match replaceMatch params ph .question st with
      | .error e => .error e
      | .ok (rep, st') =>
        prependRes rep.data (rewriteOutsideF params ph fuel false cs st') := by
  rw [rewriteOutsideF.eq_def]
  rfl

theorem rewriteOutsideF_colon {α : Type} (params : List (PKey × Param α))
    (ph : String) (fuel : Nat) (pc : Bool) (cs : List Char) (st : PrepState α) :
    rewriteOutsideF params ph (fuel + 1) pc (':' :: cs) st =
      if !pc && headIsNameStart cs then
        match replaceMatch params ph (.named ⟨cs.takeWhile nameChar⟩) st with
        | .error e => .error e
        | .ok (rep, st') =>
          prependRes rep.data
            (rewriteOutsideF params ph fuel false (cs.dropWhile nameChar) st')
      else prependRes [':'] (rewriteOutsideF params ph fuel true cs st) := by
  rw [rewriteOutsideF.eq_def]
  rfl

theorem rewriteOutsideF_other {α : Type} (params : List (PKey × Param α))
    (ph : String) (fuel : Nat) (c : Char) (h1 : c ≠ '?') (h2 : c ≠ ':') (pc : Bool)
    (cs : List Char) (st : PrepState α) :
    rewriteOutsideF params ph (fuel + 1) pc (c :: cs) st =
      prependRes [c] (rewriteOutsideF params ph fuel (c == ':') cs st) := by
  rw [rewriteOutsideF.eq_def]
  split
  · rename_i heq
    simp at heq
  · rename_i hfu htr
    omega
  · rename_i hfu heq
    injection heq with ha hb
    exact absurd ha h1
  · rename_i hfu heq
    injection heq with ha hb
    exact absurd ha h2
  · rename_i hfu heq
    injection hfu with hfu
    injection heq with ha hb
    subst hfu
    subst ha
    subst hb
    rfl

theorem rewriteOutsideF_eq {α : Type} (params : List (PKey × Param α)) (ph : String) :
    ∀ (fuel : Nat) (pc : Bool) (cs : List Char) (st : PrepState α),
      cs.length ≤ fuel →
      rewriteOutsideF params ph fuel pc cs st = rewriteOutside params ph pc cs st := by
  intro fuel
  induction fuel with
  | zero =>
    intro pc cs st hle
    have : cs = [] := List.eq_nil_of_length_eq_zero (Nat.le_zero.mp hle)
    subst this
    rw [rewriteOutside.eq_def]
    rfl
  | succ fuel ih =>
    intro pc cs st hle
    cases cs with
    | nil =>
      rw [rewriteOutside.eq_def]
      rfl
    | cons c cs' =>
      have hlen : cs'.length ≤ fuel := by
        simp only [List.length_cons] at hle
        omega
      by_cases hq : c = '?'
      · subst hq
        rw [rewriteOutsideF_question, rewriteOutside_question]
        cases hrm : replaceMatch params ph .question st with
        | error e => rfl
        | ok p =>
          obtain ⟨rep, st1⟩ := p
          dsimp only
          rw [ih false cs' st1 hlen]
      · by_cases hc : c = ':'
        · subst hc
          rw [rewriteOutsideF_colon, rewriteOutside_colon]
          by_cases hns : !pc && headIsNameStart cs'
          · rw [if_pos hns, if_pos hns]
            cases hrm : replaceMatch params ph (.named ⟨cs'.takeWhile nameChar⟩) st with
            | error e => rfl
            | ok p =>
              obtain ⟨rep, st1⟩ := p
              dsimp only
              rw [ih false (cs'.dropWhile nameChar) st1
                (le_trans ((List.dropWhile_sublist _).length_le) hlen)]
          · rw [if_neg hns, if_neg hns]
            rw [ih true cs' st hlen]
        · rw [rewriteOutsideF_other params ph fuel c hq hc,
            rewriteOutside_other params ph c hq hc]
          rw [ih (c == ':') cs' st hlen]

/-- `processSegs` with each outside segment rewritten by the fuel mirror. -/
def processSegsF {α : Type} (params : List (PKey × Param α)) (ph : String) :
    List Seg → PrepState α → Except Err (List Char × PrepState α)
  | [], st => .ok ([], st)
  | Seg.outside cs :: segs, st =>
    match rewriteOutsideF params ph cs.length false cs st with
    | .error e => .error e
    | .ok (out, st') => prependRes out (processSegsF params ph segs st')
  | Seg.lit q body :: segs, st =>
    prependRes (q :: (body ++ [q])) (processSegsF params ph segs st)

theorem processSegs_eq_fuel {α : Type} (params : List (PKey × Param α)) (ph : String) :
    ∀ (segs : List Seg) (st : PrepState α),
      processSegs params ph segs st = processSegsF params ph segs st := by
  intro segs
  induction segs with
  | nil => intro st; rfl
  | cons s rest ih =>
    intro st
    cases s with
    | outside cs =>
      simp only [processSegs, processSegsF]
      rw [rewriteOutsideF_eq params ph cs.length false cs st (le_refl _)]
      cases hro : rewriteOutside params ph false cs st with
      | error e => rfl
      | ok p =>
        obtain ⟨out, st1⟩ := p
        dsimp only
        rw [ih st1]
    | lit q body =>
      simp only [processSegs, processSegsF]
      rw [ih st]

/-- Fuel-indexed mirror of `lexSegs`. -/
def lexSegsF : Nat → List Char → Option (List Seg)
  | 0, _ => none
  | fuel + 1, cs =>
    match cs.dropWhile (fun c => !isQuote c) with
    | [] => some [Seg.outside cs]
    | q :: rest =>
      match lexLit q rest with
      | none => none
      | some (body, rest') =>
        match lexSegsF fuel rest' with
        | none => none
        | some segs =>
          some (Seg.outside (cs.takeWhile (fun c => !isQuote c)) :: Seg.lit q body :: segs)

theorem lexSegs_unfold (cs : List Char) :
    lexSegs cs =
      match cs.dropWhile (fun c => !isQuote c) with
      | [] => some [Seg.outside cs]
      | q :: rest =>
        match lexLit q rest with
        | none => none
        | some (body, rest') =>
          match lexSegs rest' with
          | none => none
          | some segs =>
            some (Seg.outside (cs.takeWhile (fun c => !isQuote c)) ::
              Seg.lit q body :: segs) := by
  conv_lhs => rw [lexSegs.eq_def]
  split
  · rename_i heq
    rw [heq]
  · split
    · rename_i hdw hl
      rw [hdw]
      dsimp only
      rw [hl]
    · rename_i hdw body rest2 hl
      rw [hdw]
      dsimp only
      rw [hl]

theorem lexSegsF_eq :
    ∀ (fuel : Nat) (cs : List Char), cs.length < fuel →
      lexSegsF fuel cs = lexSegs cs := by
  intro fuel
  induction fuel with
  | zero =>
    intro cs hlt
    exact absurd hlt (Nat.not_lt_zero _)
  | succ fuel ih =>
    intro cs hlt
    rw [lexSegs_unfold cs]
    simp only [lexSegsF]
    cases hd : cs.dropWhile (fun c => !isQuote c) with
    | nil => rfl
    | cons q rest =>
      have hrest : rest.length + 1 ≤ cs.length := by
        have := (List.dropWhile_sublist (l := cs) (p := fun c => !isQuote c)).length_le
        rw [hd] at this
        simpa using this
      dsimp only
      cases hl : lexLit q rest with
      | none => rfl
      | some p =>
        obtain ⟨body, rest'⟩ := p
        have hr' : rest'.length ≤ rest.length := lexLit_length q rest body rest' hl
        dsimp only
        rw [ih rest' (by omega)]

/-- C5 is false as the claim states it: in `SELECT "a?b'c"` the `?` lies
inside the double-quoted string literal `"a?b'c"` (per the claim's own
reading of literals, `lexSegs`), yet `Statement`'s rewriting replaces it —
the literal is not left byte-identical.  The lookahead counts the
literal-internal `'` and the closing `"` as a balanced pair, so both quote
kinds together must be balanced, not each literal separately. -/
theorem claim_C5_counterexample :
    lexSegs (("SELECT \"a?b'c\"" : String).data) =
        some [Seg.outside (("SELECT " : String).data),
          Seg.lit '"' (("a?b'c" : String).data), Seg.outside []] ∧
      ('?' ∈ (("a?b'c" : String).data)) ∧
      statement_execute [(PKey.pos 0, Param.scalar (7 : Int))] "%s" "SELECT \"a?b'c\"" =
        .ok ("SELECT \"a%sb'c\"", [7]) := by
  refine ⟨?_, by decide, ?_⟩
  · rw [← lexSegsF_eq 15 (("SELECT \"a?b'c\"" : String).data) (by decide)]
    rfl
  · rw [statement_execute_eq_fuel]
    rfl

/-- C5, amended as the counterexample forces: for every SQL text that
decomposes into outside text and single- or double-quoted literals
(`segsOK`: outside text holds no quote and no backslash, every backslash in
a literal escapes a following non-newline character, and no literal body
holds an unescaped quote character of either kind), the rewriting equals the
segment-wise process `processSegs`, which rewrites outside placeholders
unconditionally and copies every literal byte-identically. -/
theorem claim_C5_literal_preservation {α : Type} (params : List (PKey × Param α))
    (ph : String) (segs : List Seg) (h : segsOK segs = true) :
    statement_execute params ph ⟨segsJoin segs⟩ =
      match processSegs params ph segs ⟨0, []⟩ with
      | .error e => .error e
      | .ok (out, st) => .ok (⟨out⟩, st.exec_params) := by
  unfold statement_execute
  dsimp only
  rw [subParams_eq_processSegs params ph segs h]

theorem claim_C5_literal_preservation_witness :
    segsOK [Seg.outside (("x = ? AND y = " : String).data),
        Seg.lit '\'' (("a?b" : String).data), Seg.outside []] = true ∧
      statement_execute [(PKey.pos 0, Param.scalar (5 : Int))] "%s"
          ⟨segsJoin [Seg.outside (("x = ? AND y = " : String).data),
            Seg.lit '\'' (("a?b" : String).data), Seg.outside []]⟩ =
        .ok ("x = %s AND y = 'a?b'", [5]) := by
  refine ⟨by decide, ?_⟩
  refine (claim_C5_literal_preservation [(PKey.pos 0, Param.scalar (5 : Int))] "%s"
    [Seg.outside (("x = ? AND y = " : String).data),
      Seg.lit '\'' (("a?b" : String).data), Seg.outside []] (by decide)).trans ?_
  rw [processSegs_eq_fuel]
  rfl

/-- C6: a placeholder whose bound value is a list of length `k` is replaced
by `k` copies of the driver placeholder joined by `", "`, with the `k`
element values appended to the outgoing parameter vector in list order; a
scalar value emits one placeholder and appends one value.  Stated for `?`
(positional, counter consumed) and `:name` placeholders at the head of the
scan, plus a closed end-to-end run mixing a list and a scalar binding. -/
theorem claim_C6_list_expansion {α : Type} (params : List (PKey × Param α))
    (ph : String) (cs : List Char) (pc : Bool) (st : PrepState α) :
    (∀ vs : List α,
      lookupParam params (.pos st.param_counter) = some (.pylist vs) →
      lookaheadOk cs = true →
      subParams params ph pc ('?' :: cs) st =
        prependRes (String.intercalate ", " (List.replicate vs.length ph)).data
          (subParams params ph false cs
            ⟨st.param_counter + 1, st.exec_params ++ vs⟩)) ∧
    (∀ v : α,
      lookupParam params (.pos st.param_counter) = some (.scalar v) →
      lookaheadOk cs = true →
      subParams params ph pc ('?' :: cs) st =
        prependRes ph.data
          (subParams params ph false cs
            ⟨st.param_counter + 1, st.exec_params ++ [v]⟩)) ∧
    (∀ vs : List α,
      headIsNameStart cs = true →
      lookupParam params (.named ⟨cs.takeWhile nameChar⟩) = some (.pylist vs) →
      lookaheadOk (cs.dropWhile nameChar) = true →
      subParams params ph false (':' :: cs) st =
        prependRes (String.intercalate ", " (List.replicate vs.length ph)).data
          (subParams params ph false (cs.dropWhile nameChar)
            ⟨st.param_counter, st.exec_params ++ vs⟩)) ∧
    statement_execute
        [(PKey.pos 0, Param.pylist ([1, 2, 3] : List Int)),
          (PKey.pos 1, Param.scalar 4)]
        "%s" "SELECT * FROM t WHERE a IN (?) AND b = ?" =
      .ok ("SELECT * FROM t WHERE a IN (%s, %s, %s) AND b = %s", [1, 2, 3, 4]) := by
  refine ⟨fun vs hlk hla => ?_, fun v hlk hla => ?_, fun vs hns hlk hla => ?_, ?_⟩
  · rw [subParams_question, if_pos hla]
    simp only [replaceMatch, hlk]
    rw [matchRes_eq_prependRes]
  · rw [subParams_question, if_pos hla]
    simp only [replaceMatch, hlk]
    rw [matchRes_eq_prependRes]
  · rw [subParams_colon, if_pos (by simp [hns]), if_pos hla]
    simp only [replaceMatch, hlk]
    rw [matchRes_eq_prependRes]
  · rw [statement_execute_eq_fuel]
    rfl

theorem claim_C6_list_expansion_witness :
    subParams [(PKey.pos 0, Param.pylist ([1, 2] : List Int))] "%s" false ['?'] ⟨0, []⟩ =
      prependRes
        (String.intercalate ", " (List.replicate ([1, 2] : List Int).length "%s")).data
        (subParams [(PKey.pos 0, Param.pylist ([1, 2] : List Int))] "%s" false []
          ⟨0 + 1, [] ++ [1, 2]⟩) := by
  exact (claim_C6_list_expansion [(PKey.pos 0, Param.pylist ([1, 2] : List Int))]
    "%s" [] false ⟨0, []⟩).1 [1, 2] rfl (by decide)

/-! ### SQL builder (`pydbal/builder.py`)

`CPart` embeds the values that can live inside a `CompositeExpression`: raw
string predicates and nested composites.  Python dicts (the `join` and
`values` parts, and the `from_clauses` result) are insertion-ordered
association lists.  Python sets (`known_aliases`) are lists with
membership-guarded insertion.  The parameter map (`_params`,
`_param_counter`) never influences the rendered SQL and is not modelled. -/

inductive CPart where
  | raw (s : String)
  | comp (type_ : String) (parts : List CPart)

/-- Python truthiness used by `CompositeExpression.add` and `SQLBuilder._add`:
a composite is truthy when `len > 0` (`__len__`), a string when non-empty. -/
def truthyCPart : CPart → Bool
  | .raw s => s ≠ ""
  | .comp _ parts => !parts.isEmpty

/-- `CompositeExpression.add`: keep the part only if it is a non-empty
composite or a truthy value. -/
def compositeAdd (parts : List CPart) (p : CPart) : List CPart :=
  if truthyCPart p then parts ++ [p] else parts

/-- `CompositeExpression.__init__(type_, *parts)` (via `add_multiple`). -/
def compositeInit (type_ : String) (ps : List CPart) : CPart :=
  .comp type_ (ps.foldl compositeAdd [])

mutual

/-- `CompositeExpression.__str__` / `_str`: a single part renders bare, two
or more render parenthesised and joined by the composite type. -/
def renderCPart : CPart → String
  | .raw s => s
  | .comp _ [p] => renderCPart p
  | .comp t ps => "(" ++ String.intercalate (") " ++ t ++ " (") (renderCParts ps) ++ ")"
  termination_by structural p => p

def renderCParts : List CPart → List String
  | [] => []
  | p :: rest => renderCPart p :: renderCParts rest
  termination_by structural l => l

end

/-- Python `str.upper` on the ASCII strings used here (kernel-reducible,
unlike `String.toUpper`). -/
def strUpper (s : String) : String := ⟨s.data.map Char.toUpper⟩

structure JoinRec where
  kind : String
  table : String
  alias_ : String
  condition : CPart

/-- The `SQLBuilder` statement kinds and cache states. -/
def SELECT : Nat := 0

def DELETE : Nat := 1

def UPDATE : Nat := 2

def INSERT : Nat := 3

def STATE_DIRTY : Nat := 0

def STATE_CLEAN : Nat := 1

/-- The mutable state of a `SQLBuilder`: the `_sql_parts` bag (one typed
field per key), the cached SQL string, the statement kind, the dirty flag,
and the paging pair. -/
structure SQLBuilder where
  select_part : List String
  from_part : List (String × Option String)
  join_part : List (String × List JoinRec)
  set_part : List String
  where_part : Option CPart
  group_by_part : List String
  having_part : Option CPart
  order_by_part : List String
  values_part : List (String × String)
  sql : Option String
  type_ : Nat
  state : Nat
  first_result : Option Int
  max_results : Option Int

/-- `SQLBuilder.__init__` -/
def initBuilder : SQLBuilder :=
  ⟨[], [], [], [], none, [], none, [], [], none, SELECT, STATE_CLEAN, none, none⟩

/-- Insertion-ordered dict assignment `d[k] = v`. -/
def dictSet (d : List (String × String)) (k v : String) : List (String × String) :=
  if d.any (fun p => p.1 == k) then
    d.map (fun p => if p.1 == k then (k, v) else p)
  else d ++ [(k, v)]

/-- `dict.setdefault`-style bucket append for the `join` part. -/
def bucketAdd (jp : List (String × List JoinRec)) (fa : String) (j : JoinRec) :
    List (String × List JoinRec) :=
  if jp.any (fun p => p.1 == fa) then
    jp.map (fun p => if p.1 == fa then (p.1, p.2 ++ [j]) else p)
  else jp ++ [(fa, [j])]

/-- The payload handed to `SQLBuilder._add`, and its Python truthiness
(`if not sql_part: return self`): tuples are truthy when non-empty, dicts
when non-empty, composites via `__len__`. -/
inductive SqlPart where
  | strs (l : List String)
  | fromEntry (t : String) (a : Option String)
  | str (s : String)
  | joinEntry (fromAlias : String) (j : JoinRec)
  | comp (c : CPart)
  | valuesDict (l : List (String × String))

def truthySqlPart : SqlPart → Bool
  | .strs l => l ≠ []
  | .fromEntry _ _ => true
  | .str s => s ≠ ""
  | .joinEntry _ _ => true
  | .comp c => truthyCPart c
  | .valuesDict l => l ≠ []

inductive PartName where
  | select
  | fromP
  | join
  | setP
  | whereP
  | groupBy
  | having
  | orderBy
  | values
  deriving DecidableEq, Repr

/-- `SQLBuilder.reset_sql_part`: lists are emptied, dicts cleared, the rest
set to `None`; the state is marked dirty. -/
def reset_sql_part (b : SQLBuilder) (name : PartName) : SQLBuilder :=
  let b := match name with
    | .select => { b with select_part := [] }
    | .fromP => { b with from_part := [] }
    | .join => { b with join_part := [] }
    | .setP => { b with set_part := [] }
    | .whereP => { b with where_part := none }
    | .groupBy => { b with group_by_part := [] }
    | .having => { b with having_part := none }
    | .orderBy => { b with order_by_part := [] }
    | .values => { b with values_part := [] }
  { b with state := STATE_DIRTY }

/-- `SQLBuilder.reset_sql_parts` with no argument: reset every part. -/
def reset_sql_parts (b : SQLBuilder) : SQLBuilder :=
  [PartName.select, .fromP, .join, .setP, .whereP, .groupBy, .having, .orderBy,
    .values].foldl reset_sql_part b

/-- `SQLBuilder._add`: an empty part is a complete no-op; otherwise mark the
state dirty, reset the part unless appending, and store by part kind. -/
def _add (b : SQLBuilder) (name : PartName) (part : SqlPart) (append : Bool) :
    SQLBuilder :=
  if truthySqlPart part = false then b
  else
    let b := { b with state := STATE_DIRTY }
    let b := if append then b else reset_sql_part b name
    match name, part with
    | .select, .strs l => { b with select_part := b.select_part ++ l }
    | .groupBy, .strs l => { b with group_by_part := b.group_by_part ++ l }
    | .fromP, .fromEntry t a => { b with from_part := b.from_part ++ [(t, a)] }
    | .setP, .str s => { b with set_part := b.set_part ++ [s] }
    | .orderBy, .str s => { b with order_by_part := b.order_by_part ++ [s] }
    | .join, .joinEntry fa j => { b with join_part := bucketAdd b.join_part fa j }
    | .whereP, .comp c => { b with where_part := some c }
    | .having, .comp c => { b with having_part := some c }
    | .values, .valuesDict l => { b with values_part := l }
    | _, _ => b

namespace SQLBuilder

/-- `SQLBuilder.select` -/
def select (b : SQLBuilder) (args : List String) : SQLBuilder :=
  _add { b with type_ := SELECT } .select (.strs args) false

/-- `SQLBuilder.add_select` -/
def add_select (b : SQLBuilder) (args : List String) : SQLBuilder :=
  _add { b with type_ := SELECT } .select (.strs args) true

/-- `SQLBuilder.from_` -/
def from_ (b : SQLBuilder) (table : String) (alias_ : Option String) : SQLBuilder :=
  _add b .fromP (.fromEntry table alias_) true

/-- `SQLBuilder.insert` (the table is stored as a one-element tuple; only its
first component is ever read by the INSERT renderer). -/
def insert (b : SQLBuilder) (table : String) : SQLBuilder :=
  _add { b with type_ := INSERT } .fromP (.fromEntry table none) false

/-- `SQLBuilder.update` -/
def update (b : SQLBuilder) (table : String) (alias_ : Option String) : SQLBuilder :=
  _add { b with type_ := UPDATE } .fromP (.fromEntry table alias_) false

/-- `SQLBuilder.delete` -/
def delete (b : SQLBuilder) (table : String) (alias_ : Option String) : SQLBuilder :=
  _add { b with type_ := DELETE } .fromP (.fromEntry table alias_) false

/-- `SQLBuilder.inner_join` (also `join`); `left_join`/`right_join` differ
only in the kind string. -/
def inner_join (b : SQLBuilder) (from_alias join_ alias_ : String)
    (condition : List CPart) : SQLBuilder :=
  _add b .join (.joinEntry from_alias
    ⟨"inner", join_, alias_, compositeInit "AND" condition⟩) true

/-- `SQLBuilder.set` -/
def set (b : SQLBuilder) (key value : String) : SQLBuilder :=
  _add b .setP (.str (key ++ " = " ++ value)) true

/-- `SQLBuilder.where` -/
def where_ (b : SQLBuilder) (args : List CPart) : SQLBuilder :=
  _add b .whereP (.comp (compositeInit "AND" args)) false

/-- `SQLBuilder.group_by` -/
def group_by (b : SQLBuilder) (args : List String) : SQLBuilder :=
  _add b .groupBy (.strs args) false

/-- `SQLBuilder.set_value`: writes one entry of the `values` dict in place —
note that, unlike every `_add`-based mutator, it does not touch `_state`. -/
def set_value (b : SQLBuilder) (column value : String) : SQLBuilder :=
  { b with values_part := dictSet b.values_part column value }

/-- `SQLBuilder.values` -/
def values (b : SQLBuilder) (l : List (String × String)) : SQLBuilder :=
  _add b .values (.valuesDict l) false

/-- `SQLBuilder.having` -/
def having (b : SQLBuilder) (args : List CPart) : SQLBuilder :=
  _add b .having (.comp (compositeInit "AND" args)) false

/-- `SQLBuilder.order_by` -/
def order_by (b : SQLBuilder) (sort order : String) : SQLBuilder :=
  _add b .orderBy (.str (sort ++ " " ++ strUpper order)) false

/-- `SQLBuilder.add_order_by` -/
def add_order_by (b : SQLBuilder) (sort order : String) : SQLBuilder :=
  _add b .orderBy (.str (sort ++ " " ++ strUpper order)) true

/-- `SQLBuilder.set_first_result` -/
def set_first_result (b : SQLBuilder) (v : Option Int) : SQLBuilder :=
  { b with state := STATE_DIRTY, first_result := v }

/-- `SQLBuilder.set_max_results` -/
def set_max_results (b : SQLBuilder) (v : Option Int) : SQLBuilder :=
  { b with state := STATE_DIRTY, max_results := v }

end SQLBuilder

/-- `dict.__getitem__`-style bucket lookup on the `join` part. -/
def lookupBucket (jp : List (String × List JoinRec)) (fa : String) :
    Option (List JoinRec) :=
  (jp.find? (fun p => p.1 == fa)).map (fun p => p.2)

/-- `set.add`: insert only when absent (order of first insertion kept). -/
def setAdd (known : List String) (a : String) : List String :=
  if known.contains a then known else known ++ [a]

/-- The first loop of `SQLBuilder._get_sql_for_joins`: reject a join target
already known (**non-unique-alias**), else emit its fragment and add the
target alias to the known set. -/
def joins_first_loop : List JoinRec → List String → Except Err (String × List String)
  | [], known => .ok ("", known)
  | j :: rest, known =>
    if known.contains j.alias_ then .error (.nonUniqueAlias j.alias_)
    else
      match joins_first_loop rest (setAdd known j.alias_) with
      | .error e => .error e
      | .ok (s, known') =>
        .ok (" " ++ strUpper j.kind ++ " JOIN " ++ j.table ++ " " ++ j.alias_ ++
          " ON " ++ renderCPart j.condition ++ s, known')

/-- The second loop of `SQLBuilder._get_sql_for_joins`: recurse into each
join target, threading the known-alias set; the recursive call is the
function argument `f`. -/
def joins_second_loop (f : JoinRec → List String → Except Err (String × List String)) :
    List JoinRec → List String → Except Err (String × List String)
  | [], known => .ok ("", known)
  | j :: rest, known =>
    match f j known with
    | .error e => .error e
    | .ok (s1, known1) =>
      match joins_second_loop f rest known1 with
      | .error e => .error e
      | .ok (s2, known2) => .ok (s1 ++ s2, known2)

/-- `SQLBuilder._get_sql_for_joins`, with explicit fuel in place of Python's
unbounded recursion (the Python code recurses on each join target's bucket;
any cycle among aliases overflows its stack — the fuel makes that case an
explicit `recursionLimit` error). -/
def get_sql_for_joins (jp : List (String × List JoinRec)) :
    Nat → String → List String → Except Err (String × List String)
  | 0, _, _ => .error .recursionLimit
  | fuel + 1, from_alias, known =>
    match lookupBucket jp from_alias with
    | none => .ok ("", known)
    | some recs =>
      match joins_first_loop recs known with
      | .error e => .error e
      | .ok (s1, known1) =>
        match joins_second_loop (fun j k => get_sql_for_joins jp fuel j.alias_ k)
            recs known1 with
        | .error e => .error e
        | .ok (s2, known2) => .ok (s1 ++ s2, known2)

/-- The loop of `SQLBuilder._get_from_clauses`: register each from entry's
reference, collect its clause plus join fragments. -/
def from_clauses_loop (jp : List (String × List JoinRec)) (fuel : Nat) :
    List (String × Option String) → List (String × String) → List String →
    Except Err (List (String × String) × List String)
  | [], fc, known => .ok (fc, known)
  | (t, a) :: rest, fc, known =>
    let table_sql := match a with | none => t | some al => t ++ " " ++ al
    let table_reference := match a with | none => t | some al => al
    let known1 := setAdd known table_reference
    match get_sql_for_joins jp fuel table_reference known1 with
    | .error e => .error e
    | .ok (jsql, known2) =>
      from_clauses_loop jp fuel rest (dictSet fc table_reference (table_sql ++ jsql)) known2

/-- The total number of join records registered across all buckets; each
recursion step of the Python traversal that makes progress adds one of these
aliases to the known set, so this plus one bounds the recursion depth. -/
def totalJoinRecs (jp : List (String × List JoinRec)) : Nat :=
  (jp.map (fun p => p.2.length)).sum

def joinsFuel (b : SQLBuilder) : Nat := totalJoinRecs b.join_part + 1

/-- `SQLBuilder._get_from_clauses`: run the loop, then reject any join bucket
key that never became known (**unknown-alias**). -/
def get_from_clauses (b : SQLBuilder) : Except Err (List (String × String)) :=
  match from_clauses_loop b.join_part (joinsFuel b) b.from_part [] [] with
  | .error e => .error e
  | .ok (fc, known) =>
    match b.join_part.find? (fun p => !(known.contains p.1)) with
    | some p => .error (.unknownAlias p.1)
    | none => .ok fc

/-- `SQLBuilder._get_sql_for_select`; the platform's `modify_limit_sql` is
passed in as `pf`. (Dict iteration order is modelled as insertion order.) -/
def get_sql_for_select (pf : String → Option Int → Option Int → Except Err String)
    (b : SQLBuilder) : Except Err String :=
  match get_from_clauses b with
  | .error e => .error e
  | .ok fc =>
    let sql := "SELECT " ++ String.intercalate ", " b.select_part ++ " FROM " ++
      String.intercalate ", " (fc.map (fun p => p.2))
    let sql := match b.where_part with
      | some w => sql ++ " WHERE " ++ renderCPart w
      | none => sql
    let sql := if b.group_by_part ≠ [] then
        sql ++ " GROUP BY " ++ String.intercalate ", " b.group_by_part
      else sql
    let sql := match b.having_part with
      | some hv => sql ++ " HAVING " ++ renderCPart hv
      | none => sql
    let sql := if b.order_by_part ≠ [] then
        sql ++ " ORDER BY " ++ String.intercalate ", " b.order_by_part
      else sql
    if b.max_results ≠ none ∨ b.first_result ≠ none then
      pf sql b.max_results b.first_result
    else .ok sql

/-- `SQLBuilder._get_sql_for_insert` (indexes `from[0]`, hence the
`indexError` on an empty from part). -/
def get_sql_for_insert (b : SQLBuilder) : Except Err String :=
  match b.from_part with
  | [] => .error .indexError
  | (t, _) :: _ =>
    .ok ("INSERT INTO " ++ t ++ " (" ++
      String.intercalate ", " (b.values_part.map (fun p => p.1)) ++ ") VALUES(" ++
      String.intercalate ", " (b.values_part.map (fun p => p.2)) ++ ")")

/-- `SQLBuilder._get_sql_for_update` -/
def get_sql_for_update (b : SQLBuilder) : Except Err String :=
  match b.from_part with
  | [] => .error .indexError
  | (t, a) :: _ =>
    let sql := "UPDATE " ++ t
    let sql := match a with | some al => sql ++ " " ++ al | none => sql
    let sql := if b.set_part ≠ [] then
        sql ++ " SET " ++ String.intercalate ", " b.set_part
      else sql
    let sql := match b.where_part with
      | some w => sql ++ " WHERE " ++ renderCPart w
      | none => sql
    .ok sql

/-- `SQLBuilder._get_sql_for_delete` -/
def get_sql_for_delete (b : SQLBuilder) : Except Err String :=
  match b.from_part with
  | [] => .error .indexError
  | (t, a) :: _ =>
    let sql := "DELETE FROM " ++ t
    let sql := match a with | some al => sql ++ " " ++ al | none => sql
    let sql := match b.where_part with
      | some w => sql ++ " WHERE " ++ renderCPart w
      | none => sql
    .ok sql

/-- The dispatch on `self._type` inside `SQLBuilder.get_sql`. -/
def render_sql (pf : String → Option Int → Option Int → Except Err String)
    (b : SQLBuilder) : Except Err String :=
  if b.type_ = INSERT then get_sql_for_insert b
  else if b.type_ = DELETE then get_sql_for_delete b
  else if b.type_ = UPDATE then get_sql_for_update b
  else get_sql_for_select pf b

/-- The cache write at the end of `SQLBuilder.get_sql`. -/
def cache_sql (b : SQLBuilder) (s : String) : SQLBuilder :=
  { b with sql := some s
           state := STATE_CLEAN }

/-- `SQLBuilder.get_sql`: return the cache when a string is cached and the
state is clean; otherwise render, cache, and mark clean. -/
def get_sql (pf : String → Option Int → Option Int → Except Err String)
    (b : SQLBuilder) : Except Err (String × SQLBuilder) :=
  match b.sql with
  | some s =>
    if b.state = STATE_CLEAN then .ok (s, b)
    else
      match render_sql pf b with
      | .error e => .error e
      | .ok s' => .ok (s', cache_sql b s')
  | none =>
    match render_sql pf b with
    | .error e => .error e
    | .ok s' => .ok (s', cache_sql b s')

/-! ### C4: join alias validation

The Python traversal recurses through `_get_sql_for_joins` without an
explicit bound; the fuel mirror makes the bound explicit.  The measure
`muJoins` — the number of registered join records whose target alias is not
yet known — strictly decreases at every recursion step into a non-empty
bucket, so `totalJoinRecs + 1` fuel always suffices and the
`recursionLimit` error is unreachable from `get_from_clauses`. -/

theorem contains_iff_mem (l : List String) (a : String) :
    l.contains a = true ↔ a ∈ l := by
  show l.elem a = true ↔ a ∈ l
  exact List.elem_iff

def subsetLC (xs ys : List String) : Prop := ∀ a : String, a ∈ xs → a ∈ ys

theorem subsetLC_refl (xs : List String) : subsetLC xs xs := fun _ h => h

theorem subsetLC_trans {xs ys zs : List String} (h1 : subsetLC xs ys)
    (h2 : subsetLC ys zs) : subsetLC xs zs := fun a ha => h2 a (h1 a ha)

theorem setAdd_subset (k : List String) (a : String) : subsetLC k (setAdd k a) := by
  intro x hx
  unfold setAdd
  by_cases h : k.contains a = true
  · rw [if_pos h]
    exact hx
  · rw [if_neg h]
    exact List.mem_append_left _ hx

theorem setAdd_mem (k : List String) (a : String) : a ∈ setAdd k a := by
  unfold setAdd
  by_cases h : k.contains a = true
  · rw [if_pos h]
    exact (contains_iff_mem k a).mp h
  · rw [if_neg h]
    exact List.mem_append_right _ (List.mem_singleton.mpr rfl)

theorem joins_first_loop_subset :
    ∀ (recs : List JoinRec) (known : List String) (s : String) (known' : List String),
      joins_first_loop recs known = .ok (s, known') →
      subsetLC known known' ∧ ∀ j ∈ recs, j.alias_ ∈ known' := by
  intro recs
  induction recs with
  | nil =>
    intro known s known' h
    simp only [joins_first_loop, Except.ok.injEq, Prod.mk.injEq] at h
    obtain ⟨hs, hk⟩ := h
    subst hk
    exact ⟨subsetLC_refl _, by simp⟩
  | cons j rest ih =>
    intro known s known' h
    simp only [joins_first_loop] at h
    by_cases hc : known.contains j.alias_ = true
    · rw [if_pos hc] at h
      simp at h
    · rw [if_neg hc] at h
      cases hrec : joins_first_loop rest (setAdd known j.alias_) with
      | error e =>
        rw [hrec] at h
        simp at h
      | ok p =>
        obtain ⟨s2, k2⟩ := p
        rw [hrec] at h
        simp only [Except.ok.injEq, Prod.mk.injEq] at h
        obtain ⟨hs, hk⟩ := h
        subst hk
        obtain ⟨hsub, hmem⟩ := ih (setAdd known j.alias_) s2 k2 hrec
        refine ⟨subsetLC_trans (setAdd_subset known j.alias_) hsub, ?_⟩
        intro j2 hj2
        rcases List.mem_cons.mp hj2 with h1 | h2
        · rw [h1]
          exact hsub _ (setAdd_mem known j.alias_)
        · exact hmem j2 h2

theorem joins_first_loop_head_fresh (j : JoinRec) (rest : List JoinRec)
    (known : List String) (s : String) (known' : List String)
    (h : joins_first_loop (j :: rest) known = .ok (s, known')) :
    known.contains j.alias_ = false := by
  by_cases hc : known.contains j.alias_ = true
  · exfalso
    simp only [joins_first_loop] at h
    rw [if_pos hc] at h
    simp at h
  · exact Bool.eq_false_iff.mpr hc

theorem joins_first_loop_error :
    ∀ (recs : List JoinRec) (known : List String) (e : Err),
      joins_first_loop recs known = .error e → ∃ a, e = Err.nonUniqueAlias a := by
  intro recs
  induction recs with
  | nil =>
    intro known e h
    simp [joins_first_loop] at h
  | cons j rest ih =>
    intro known e h
    simp only [joins_first_loop] at h
    by_cases hc : known.contains j.alias_ = true
    · rw [if_pos hc] at h
      simp only [Except.error.injEq] at h
      exact ⟨j.alias_, h.symm⟩
    · rw [if_neg hc] at h
      cases hrec : joins_first_loop rest (setAdd known j.alias_) with
      | error e2 =>
        rw [hrec] at h
        simp only [Except.error.injEq] at h
        subst h
        exact ih (setAdd known j.alias_) e2 hrec
      | ok p =>
        obtain ⟨s2, k2⟩ := p
        rw [hrec] at h
        simp at h

/-- Records of a bucket list whose target alias is not yet known. -/
def muJoins (jp : List (String × List JoinRec)) (known : List String) : Nat :=
  (jp.map (fun p => p.2.countP (fun j => !known.contains j.alias_))).sum

theorem countP_alias_antitone {k k' : List String} (h : subsetLC k k')
    (recs : List JoinRec) :
    recs.countP (fun j => !k'.contains j.alias_) ≤
      recs.countP (fun j => !k.contains j.alias_) := by
  refine List.countP_mono_left ?_
  intro j hj hjk
  by_cases hck : k.contains j.alias_ = true
  · exfalso
    have hck' : k'.contains j.alias_ = true :=
      (contains_iff_mem _ _).mpr (h _ ((contains_iff_mem _ _).mp hck))
    rw [hck'] at hjk
    simp at hjk
  · have hkf : k.contains j.alias_ = false := Bool.eq_false_iff.mpr hck
    rw [hkf]
    rfl

theorem muJoins_antitone (jp : List (String × List JoinRec)) {k k' : List String}
    (h : subsetLC k k') : muJoins jp k' ≤ muJoins jp k := by
  unfold muJoins
  refine List.sum_le_sum ?_
  intro p hp
  exact countP_alias_antitone h p.2

theorem muJoins_le_total (jp : List (String × List JoinRec)) (known : List String) :
    muJoins jp known ≤ totalJoinRecs jp := by
  unfold muJoins totalJoinRecs
  refine List.sum_le_sum ?_
  intro p hp
  exact List.countP_le_length _

theorem muJoins_strict :
    ∀ (jp : List (String × List JoinRec)) (fa : String) (r : JoinRec)
      (rest : List JoinRec) (k k' : List String),
      lookupBucket jp fa = some (r :: rest) → subsetLC k k' →
      r.alias_ ∈ k' → k.contains r.alias_ = false →
      muJoins jp k' < muJoins jp k := by
  intro jp
  induction jp with
  | nil =>
    intro fa r rest k k' hlb
    simp [lookupBucket] at hlb
  | cons p jp' ih =>
    intro fa r rest k k' hlb hsub hmem hfresh
    unfold lookupBucket at hlb
    simp only [List.find?] at hlb
    by_cases hpf : (p.1 == fa) = true
    · rw [hpf] at hlb
      dsimp only at hlb
      simp only [Option.map_some', Option.some.injEq] at hlb
      unfold muJoins
      simp only [List.map_cons, List.sum_cons]
      have h1 : p.2.countP (fun j => !k'.contains j.alias_) <
          p.2.countP (fun j => !k.contains j.alias_) := by
        rw [hlb, List.countP_cons, List.countP_cons]
        have hr' : (!k'.contains r.alias_) = false := by
          have hm : k'.contains r.alias_ = true := (contains_iff_mem _ _).mpr hmem
          rw [hm]
          rfl
        have hrk : (!k.contains r.alias_) = true := by
          rw [hfresh]
          rfl
        rw [hr', hrk]
        have hle : rest.countP (fun j => !k'.contains j.alias_) ≤
            rest.countP (fun j => !k.contains j.alias_) :=
          countP_alias_antitone hsub rest
        simp only [Bool.false_eq_true, eq_self_iff_true, if_false, if_true]
        omega
      have h2 : muJoins jp' k' ≤ muJoins jp' k := muJoins_antitone jp' hsub
      unfold muJoins at h2
      omega
    · have hpf2 : (p.1 == fa) = false := Bool.eq_false_iff.mpr hpf
      rw [hpf2] at hlb
      dsimp only at hlb
      unfold muJoins
      simp only [List.map_cons, List.sum_cons]
      have h1 : p.2.countP (fun j => !k'.contains j.alias_) ≤
          p.2.countP (fun j => !k.contains j.alias_) :=
        countP_alias_antitone hsub p.2
      have h2 : muJoins jp' k' < muJoins jp' k := ih fa r rest k k' hlb hsub hmem hfresh
      unfold muJoins at h2
      omega

theorem joins_second_loop_subset
    (f : JoinRec → List String → Except Err (String × List String))
    (hf : ∀ (j : JoinRec) (k : List String) (s : String) (k' : List String),
      f j k = .ok (s, k') → subsetLC k k') :
    ∀ (recs : List JoinRec) (known : List String) (s : String) (known' : List String),
      joins_second_loop f recs known = .ok (s, known') → subsetLC known known' := by
  intro recs
  induction recs with
  | nil =>
    intro known s known' h
    simp only [joins_second_loop, Except.ok.injEq, Prod.mk.injEq] at h
    obtain ⟨hs, hk⟩ := h
    subst hk
    exact subsetLC_refl _
  | cons j rest ih =>
    intro known s known' h
    simp only [joins_second_loop] at h
    cases hf1 : f j known with
    | error e =>
      rw [hf1] at h
      simp at h
    | ok p =>
      obtain ⟨s1, k1⟩ := p
      rw [hf1] at h
      dsimp only at h
      cases h2 : joins_second_loop f rest k1 with
      | error e =>
        rw [h2] at h
        simp at h
      | ok p2 =>
        obtain ⟨s2, k2⟩ := p2
        rw [h2] at h
        simp only [Except.ok.injEq, Prod.mk.injEq] at h
        obtain ⟨hs, hk⟩ := h
        subst hk
        exact subsetLC_trans (hf j known s1 k1 hf1) (ih k1 s2 k2 h2)

theorem get_sql_for_joins_subset (jp : List (String × List JoinRec)) :
    ∀ (fuel : Nat) (fa : String) (known : List String) (s : String)
      (known' : List String),
      get_sql_for_joins jp fuel fa known = .ok (s, known') → subsetLC known known' := by
  intro fuel
  induction fuel with
  | zero =>
    intro fa known s known' h
    simp [get_sql_for_joins] at h
  | succ fuel ih =>
    intro fa known s known' h
    simp only [get_sql_for_joins] at h
    cases hlb : lookupBucket jp fa with
    | none =>
      rw [hlb] at h
      simp only [Except.ok.injEq, Prod.mk.injEq] at h
      obtain ⟨hs, hk⟩ := h
      subst hk
      exact subsetLC_refl _
    | some recs =>
      rw [hlb] at h
      dsimp only at h
      cases hfl : joins_first_loop recs known with
      | error e =>
        rw [hfl] at h
        simp at h
      | ok p1 =>
        obtain ⟨s1, k1⟩ := p1
        rw [hfl] at h
        dsimp only at h
        cases hsl : joins_second_loop
            (fun j k => get_sql_for_joins jp fuel j.alias_ k) recs k1 with
        | error e =>
          rw [hsl] at h
          simp at h
        | ok p2 =>
          obtain ⟨s2, k2⟩ := p2
          rw [hsl] at h
          simp only [Except.ok.injEq, Prod.mk.injEq] at h
          obtain ⟨hs, hk⟩ := h
          subst hk
          exact subsetLC_trans (joins_first_loop_subset recs known s1 k1 hfl).1
            (joins_second_loop_subset _
              (fun j k s3 k3 hf => ih j.alias_ k s3 k3 hf) recs k1 s2 k2 hsl)

theorem joins_second_loop_no_limit (jp : List (String × List JoinRec)) (fuel : Nat)
    (hfuel : ∀ (fa : String) (known : List String), muJoins jp known < fuel →
      get_sql_for_joins jp fuel fa known ≠ .error Err.recursionLimit) :
    ∀ (recs : List JoinRec) (known : List String), muJoins jp known < fuel →
      joins_second_loop (fun j k => get_sql_for_joins jp fuel j.alias_ k) recs known ≠
        .error Err.recursionLimit := by
  intro recs
  induction recs with
  | nil =>
    intro known hlt
    simp [joins_second_loop]
  | cons j rest ih =>
    intro known hlt
    simp only [joins_second_loop]
    cases hf1 : get_sql_for_joins jp fuel j.alias_ known with
    | error e =>
      dsimp only
      intro hc
      apply hfuel j.alias_ known hlt
      rw [hf1]
      injection hc with hc
      rw [hc]
    | ok p =>
      obtain ⟨s1, k1⟩ := p
      dsimp only
      have hsub : subsetLC known k1 :=
        get_sql_for_joins_subset jp fuel j.alias_ known s1 k1 hf1
      have hk1 : muJoins jp k1 < fuel := lt_of_le_of_lt (muJoins_antitone jp hsub) hlt
      cases h2 : joins_second_loop
          (fun j k => get_sql_for_joins jp fuel j.alias_ k) rest k1 with
      | error e =>
        dsimp only
        intro hc
        apply ih k1 hk1
        rw [h2]
        injection hc with hc
        rw [hc]
      | ok p2 =>
        obtain ⟨s2, k2⟩ := p2
        simp

theorem get_sql_for_joins_no_limit (jp : List (String × List JoinRec)) :
    ∀ (fuel : Nat) (fa : String) (known : List String), muJoins jp known < fuel →
      get_sql_for_joins jp fuel fa known ≠ .error Err.recursionLimit := by
  intro fuel
  induction fuel with
  | zero =>
    intro fa known hlt
    exact absurd hlt (Nat.not_lt_zero _)
  | succ fuel ih =>
    intro fa known hlt
    simp only [get_sql_for_joins]
    cases hlb : lookupBucket jp fa with
    | none => simp
    | some recs =>
      dsimp only
      cases hfl : joins_first_loop recs known with
      | error e =>
        obtain ⟨a, ha⟩ := joins_first_loop_error recs known e hfl
        subst ha
        simp
      | ok p1 =>
        obtain ⟨s1, k1⟩ := p1
        dsimp only
        cases recs with
        | nil =>
          simp [joins_second_loop]
        | cons r rest =>
          have hfresh : known.contains r.alias_ = false :=
            joins_first_loop_head_fresh r rest known s1 k1 hfl
          obtain ⟨hsub1, hmem1⟩ := joins_first_loop_subset (r :: rest) known s1 k1 hfl
          have hmemr : r.alias_ ∈ k1 := hmem1 r (List.mem_cons_self _ _)
          have hstrict : muJoins jp k1 < muJoins jp known :=
            muJoins_strict jp fa r rest known k1 hlb hsub1 hmemr hfresh
          have hk1 : muJoins jp k1 < fuel := by omega
          have hsl := joins_second_loop_no_limit jp fuel ih (r :: rest) k1 hk1
          cases hx : joins_second_loop
              (fun j k => get_sql_for_joins jp fuel j.alias_ k) (r :: rest) k1 with
          | error e =>
            dsimp only
            intro hc
            apply hsl
            rw [hx]
            injection hc with hc
            rw [hc]
          | ok p2 =>
            obtain ⟨s2, k2⟩ := p2
            simp

theorem from_clauses_loop_no_limit (jp : List (String × List JoinRec)) (fuel : Nat)
    (hfuel : ∀ (fa : String) (known : List String), muJoins jp known < fuel →
      get_sql_for_joins jp fuel fa known ≠ .error Err.recursionLimit) :
    ∀ (fp : List (String × Option String)) (fc : List (String × String))
      (known : List String), muJoins jp known < fuel →
      from_clauses_loop jp fuel fp fc known ≠ .error Err.recursionLimit := by
  intro fp
  induction fp with
  | nil =>
    intro fc known hlt
    simp [from_clauses_loop]
  | cons e rest ih =>
    obtain ⟨t, a⟩ := e
    intro fc known hlt
    simp only [from_clauses_loop]
    cases a with
    | none =>
      dsimp only
      have hk1 : muJoins jp (setAdd known t) < fuel :=
        lt_of_le_of_lt (muJoins_antitone jp (setAdd_subset known t)) hlt
      cases hj : get_sql_for_joins jp fuel t (setAdd known t) with
      | error e2 =>
        dsimp only
        intro hc
        apply hfuel t (setAdd known t) hk1
        rw [hj]
        injection hc with hc
        rw [hc]
      | ok p =>
        obtain ⟨jsql, k2⟩ := p
        dsimp only
        have hsub : subsetLC (setAdd known t) k2 :=
          get_sql_for_joins_subset jp fuel t (setAdd known t) jsql k2 hj
        have hk2 : muJoins jp k2 < fuel :=
          lt_of_le_of_lt (muJoins_antitone jp hsub) hk1
        exact ih (dictSet fc t (t ++ jsql)) k2 hk2
    | some al =>
      dsimp only
      have hk1 : muJoins jp (setAdd known al) < fuel :=
        lt_of_le_of_lt (muJoins_antitone jp (setAdd_subset known al)) hlt
      cases hj : get_sql_for_joins jp fuel al (setAdd known al) with
      | error e2 =>
        dsimp only
        intro hc
        apply hfuel al (setAdd known al) hk1
        rw [hj]
        injection hc with hc
        rw [hc]
      | ok p =>
        obtain ⟨jsql, k2⟩ := p
        dsimp only
        have hsub : subsetLC (setAdd known al) k2 :=
          get_sql_for_joins_subset jp fuel al (setAdd known al) jsql k2 hj
        have hk2 : muJoins jp k2 < fuel :=
          lt_of_le_of_lt (muJoins_antitone jp hsub) hk1
        exact ih (dictSet fc al ((t ++ " " ++ al) ++ jsql)) k2 hk2

/-- C4: for a SELECT builder with no cached SQL and no paging, the alias
validation of `get_sql` classifies exactly as claimed: the traversal never
exhausts its fuel; when the from-clause loop completes with every join
bucket key known, `get_sql` succeeds; when some bucket key is not among the
known aliases, `get_sql` raises **unknown-alias** for the first such key;
and when the traversal hits an already-known join target alias, `get_sql`
raises **non-unique-alias** for it. -/
theorem claim_C4_join_alias_validation
    (pf : String → Option Int → Option Int → Except Err String) (b : SQLBuilder)
    (hsel : b.type_ = SELECT) (hsql : b.sql = none)
    (hmax : b.max_results = none) (hfirst : b.first_result = none) :
    from_clauses_loop b.join_part (joinsFuel b) b.from_part [] [] ≠
        .error Err.recursionLimit ∧
    (∀ (fc : List (String × String)) (known : List String),
      from_clauses_loop b.join_part (joinsFuel b) b.from_part [] [] = .ok (fc, known) →
      (∀ p ∈ b.join_part, known.contains p.1 = true) →
      ∃ s, get_sql pf b = .ok (s, cache_sql b s)) ∧
    (∀ (fc : List (String × String)) (known : List String) (pr : String × List JoinRec),
      from_clauses_loop b.join_part (joinsFuel b) b.from_part [] [] = .ok (fc, known) →
      b.join_part.find? (fun p => !(known.contains p.1)) = some pr →
      get_sql pf b = .error (.unknownAlias pr.1)) ∧
    (∀ a : String,
      from_clauses_loop b.join_part (joinsFuel b) b.from_part [] [] =
          .error (.nonUniqueAlias a) →
      get_sql pf b = .error (.nonUniqueAlias a)) := by
  have hrs : render_sql pf b = get_sql_for_select pf b := by
    unfold render_sql
    rw [hsel]
    rfl
  have hgs : get_sql pf b = (match get_sql_for_select pf b with
      | .error e => .error e
      | .ok s => .ok (s, cache_sql b s)) := by
    unfold get_sql
    rw [hsql]
    dsimp only
    rw [hrs]
  refine ⟨?_, ?_, ?_, ?_⟩
  · exact from_clauses_loop_no_limit b.join_part (joinsFuel b)
      (fun fa known h => get_sql_for_joins_no_limit b.join_part (joinsFuel b) fa known h)
      b.from_part [] []
      (Nat.lt_succ_of_le (muJoins_le_total b.join_part []))
  · intro fc known hloop hknown
    have hfind : b.join_part.find? (fun p => !(known.contains p.1)) = none := by
      apply List.find?_eq_none.mpr
      intro p hp
      rw [hknown p hp]
      simp
    have hgfc : get_from_clauses b = .ok fc := by
      unfold get_from_clauses
      rw [hloop]
      dsimp only
      rw [hfind]
    have hssel : ∃ s, get_sql_for_select pf b = .ok s := by
      unfold get_sql_for_select
      rw [hgfc]
      dsimp only
      rw [hmax, hfirst]
      simp
    obtain ⟨s, hs⟩ := hssel
    exact ⟨s, by rw [hgs, hs]⟩
  · intro fc known pr hloop hfind
    have hgfc : get_from_clauses b = .error (.unknownAlias pr.1) := by
      unfold get_from_clauses
      rw [hloop]
      dsimp only
      rw [hfind]
    have hss : get_sql_for_select pf b = .error (.unknownAlias pr.1) := by
      unfold get_sql_for_select
      rw [hgfc]
    rw [hgs, hss]
  · intro a hloop
    have hgfc : get_from_clauses b = .error (.nonUniqueAlias a) := by
      unfold get_from_clauses
      rw [hloop]
    have hss : get_sql_for_select pf b = .error (.nonUniqueAlias a) := by
      unfold get_sql_for_select
      rw [hgfc]
    rw [hgs, hss]

set_option maxRecDepth 4096 in
theorem claim_C4_join_alias_validation_witness :
    ∃ s, get_sql (modify_limit_sql mysql_modify_limit_sql true)
        (SQLBuilder.inner_join
          (SQLBuilder.from_ (SQLBuilder.select initBuilder ["u.name"]) "users" (some "u"))
          "u" "addresses" "a" [CPart.raw "u.id = a.user_id"]) =
      .ok (s, cache_sql
        (SQLBuilder.inner_join
          (SQLBuilder.from_ (SQLBuilder.select initBuilder ["u.name"]) "users" (some "u"))
          "u" "addresses" "a" [CPart.raw "u.id = a.user_id"]) s) := by
  refine (claim_C4_join_alias_validation (modify_limit_sql mysql_modify_limit_sql true)
      (SQLBuilder.inner_join
        (SQLBuilder.from_ (SQLBuilder.select initBuilder ["u.name"]) "users" (some "u"))
        "u" "addresses" "a" [CPart.raw "u.id = a.user_id"])
      rfl rfl rfl rfl).2.1
    [("u", "users u INNER JOIN addresses a ON u.id = a.user_id")] ["u", "a"]
    (by rfl)
    (fun p hp => by
      rw [show (SQLBuilder.inner_join
        (SQLBuilder.from_ (SQLBuilder.select initBuilder ["u.name"]) "users" (some "u"))
        "u" "addresses" "a" [CPart.raw "u.id = a.user_id"]).join_part =
          [("u", [⟨"inner", "addresses", "a",
            CPart.comp "AND" [CPart.raw "u.id = a.user_id"]⟩])] from rfl] at hp
      rw [List.mem_singleton] at hp
      subst hp
      rfl)

/-! ### C10: empty-part mutators -/

theorem foldl_compositeAdd_falsy :
    ∀ (args : List CPart), (∀ p ∈ args, truthyCPart p = false) →
      ∀ acc : List CPart, args.foldl compositeAdd acc = acc := by
  intro args
  induction args with
  | nil =>
    intro _ acc
    rfl
  | cons p rest ih =>
    intro h acc
    have hp : truthyCPart p = false := h p (List.mem_cons_self _ _)
    show List.foldl compositeAdd (compositeAdd acc p) rest = acc
    rw [show compositeAdd acc p = acc from by simp [compositeAdd, hp]]
    exact ih (fun q hq => h q (List.mem_cons_of_mem _ hq)) acc

/-- C10: calling a part mutator with an empty part — `values` with an empty
dict, or `where`/`having` whose arguments all filter out of the composite —
is a complete no-op: `_add` returns the builder unchanged, so the existing
part content, the state flag and the cached SQL are all preserved. -/
theorem claim_C10_empty_part_noop :
    (∀ b : SQLBuilder, SQLBuilder.values b [] = b) ∧
    (∀ (b : SQLBuilder) (args : List CPart),
      (∀ p ∈ args, truthyCPart p = false) → SQLBuilder.where_ b args = b) ∧
    (∀ (b : SQLBuilder) (args : List CPart),
      (∀ p ∈ args, truthyCPart p = false) → SQLBuilder.having b args = b) := by
  refine ⟨fun b => rfl, fun b args h => ?_, fun b args h => ?_⟩
  · show _add b .whereP (.comp (compositeInit "AND" args)) false = b
    unfold compositeInit
    rw [foldl_compositeAdd_falsy args h []]
    rfl
  · show _add b .having (.comp (compositeInit "AND" args)) false = b
    unfold compositeInit
    rw [foldl_compositeAdd_falsy args h []]
    rfl

theorem claim_C10_empty_part_noop_witness :
    SQLBuilder.values
        ⟨["x"], [("t", some "a")], [], [], some (CPart.raw "c = 1"), [], none, [],
          [], some "SELECT x FROM t a WHERE c = 1", SELECT, STATE_CLEAN, none, none⟩
        [] =
      ⟨["x"], [("t", some "a")], [], [], some (CPart.raw "c = 1"), [], none, [],
        [], some "SELECT x FROM t a WHERE c = 1", SELECT, STATE_CLEAN, none, none⟩ ∧
    SQLBuilder.where_
        ⟨["x"], [("t", some "a")], [], [], some (CPart.raw "c = 1"), [], none, [],
          [], some "SELECT x FROM t a WHERE c = 1", SELECT, STATE_CLEAN, none, none⟩
        [CPart.raw ""] =
      ⟨["x"], [("t", some "a")], [], [], some (CPart.raw "c = 1"), [], none, [],
        [], some "SELECT x FROM t a WHERE c = 1", SELECT, STATE_CLEAN, none, none⟩ :=
  ⟨claim_C10_empty_part_noop.1 _,
    claim_C10_empty_part_noop.2.1 _ [CPart.raw ""]
      (fun p hp => by
        rw [List.mem_singleton] at hp
        subst hp
        rfl)⟩

/-! ### C3: `set_value` and the dirty flag -/

/-- C3 is false for `set_value`: it writes the `values` dict in place and
never touches `_state` (first conjunct, over every builder).  Concretely,
after `insert("t")`, `set_value("a", "1")` and a `get_sql()` that caches
`INSERT INTO t (a) VALUES(1)`, a further `set_value("b", "2")` leaves the
state clean, so `get_sql()` returns the stale cached string even though
rendering the current parts would give `INSERT INTO t (a, b) VALUES(1, 2)`. -/
theorem claim_C3_set_value_not_dirty :
    (∀ (b : SQLBuilder) (c v : String), (SQLBuilder.set_value b c v).state = b.state) ∧
    get_sql (modify_limit_sql mysql_modify_limit_sql true)
        (SQLBuilder.set_value (SQLBuilder.insert initBuilder "t") "a" "1") =
      .ok ("INSERT INTO t (a) VALUES(1)",
        ⟨[], [("t", none)], [], [], none, [], none, [], [("a", "1")],
          some "INSERT INTO t (a) VALUES(1)", INSERT, STATE_CLEAN, none, none⟩) ∧
    SQLBuilder.set_value
        ⟨[], [("t", none)], [], [], none, [], none, [], [("a", "1")],
          some "INSERT INTO t (a) VALUES(1)", INSERT, STATE_CLEAN, none, none⟩
        "b" "2" =
      ⟨[], [("t", none)], [], [], none, [], none, [], [("a", "1"), ("b", "2")],
        some "INSERT INTO t (a) VALUES(1)", INSERT, STATE_CLEAN, none, none⟩ ∧
    (⟨[], [("t", none)], [], [], none, [], none, [], [("a", "1"), ("b", "2")],
      some "INSERT INTO t (a) VALUES(1)", INSERT, STATE_CLEAN, none,
      none⟩ : SQLBuilder).state = STATE_CLEAN ∧
    get_sql (modify_limit_sql mysql_modify_limit_sql true)
        ⟨[], [("t", none)], [], [], none, [], none, [], [("a", "1"), ("b", "2")],
          some "INSERT INTO t (a) VALUES(1)", INSERT, STATE_CLEAN, none, none⟩ =
      .ok ("INSERT INTO t (a) VALUES(1)",
        ⟨[], [("t", none)], [], [], none, [], none, [], [("a", "1"), ("b", "2")],
          some "INSERT INTO t (a) VALUES(1)", INSERT, STATE_CLEAN, none, none⟩) ∧
    get_sql_for_insert
        ⟨[], [("t", none)], [], [], none, [], none, [], [("a", "1"), ("b", "2")],
          some "INSERT INTO t (a) VALUES(1)", INSERT, STATE_CLEAN, none, none⟩ =
      .ok "INSERT INTO t (a, b) VALUES(1, 2)" :=
  ⟨fun b c v => rfl, rfl, rfl, rfl, rfl, rfl⟩

end PyDBAL
